import Mathlib

/-!
# scrapeNPM: job queue, discovery loop and worker pipeline

A shallow embedding of the parts of the repository that its specification
talks about:

* `internal/processor/repository.go`: `ClaimJob`, `CompleteJob`, `FailJob`,
  each one SQL statement, modelled as a function on the `job_queue` table;
* `internal/discovery/scraper.go`: `Scraper.processBatch`;
* `internal/processor/worker.go`: `processFetchPackageJob`,
  `fetchDownloadCount`;
* `internal/processor/extractor.go`: the extractor the worker calls.

Modelling conventions.  The table is a list of rows in physical order.  A
statement that the database executes successfully is one atomic step; failures
of the connection itself (`Begin`, `Commit`, a broken socket) are outside the
model.  PostgreSQL rejects out-of-range integers and timestamps with an error
instead of wrapping, so integers and instants are unbounded here.
-/

namespace ScrapeNPM

/-! ## Basic types -/

/-- Identifiers (`uuid.UUID`); only equality is ever used. -/
abbrev UUID := Nat

/-- Instants, counted in nanoseconds from the zero value of Go's `time.Time`. -/
abbrev Time := Int

/-- One minute (`INTERVAL '1 minute'`) in the unit of `Time`. -/
def minute : Int := 60000000000

/-- A finite `float64`, denoting `mant * 2 ^ exp`. -/
structure Float64 where
  mant : Int
  exp : Int
deriving DecidableEq, Repr

/-- Dynamic values held in an `interface{}`: the six shapes `json.Unmarshal`
produces, and `time.Time`, which `processBatch` places in a job payload. -/
inductive Value where
  | null : Value
  | bool (b : Bool) : Value
  | num (f : Float64) : Value
  | str (s : String) : Value
  | arr (xs : List Value) : Value
  | obj (kvs : List (String × Value)) : Value
  | time (t : Time) : Value

/-- A `map[string]interface{}`: an association list read by its first match.
A nil map and an empty map read alike. -/
abbrev Obj := List (String × Value)

/-- Reading `m[key]`: `none` stands for the nil interface of a missing key. -/
def Obj.get (m : Obj) (key : String) : Option Value := m.lookup key

/-- Type assertion `v.(string)`. -/
def asString : Option Value → Option String
  | some (Value.str s) => some s
  | _ => none

/-- Type assertion `v.(bool)`. -/
def asBool : Option Value → Option Bool
  | some (Value.bool b) => some b
  | _ => none

/-- Type assertion `v.(float64)`. -/
def asFloat64 : Option Value → Option Float64
  | some (Value.num f) => some f
  | _ => none

/-- Type assertion `v.(map[string]interface{})`. -/
def asObj : Option Value → Option Obj
  | some (Value.obj m) => some m
  | _ => none

/-- Type assertion `v.([]interface{})`. -/
def asArr : Option Value → Option (List Value)
  | some (Value.arr xs) => some xs
  | _ => none

/-! ## The job table (`internal/models/package.go`, `job_queue`) -/

/-- `models.Job`, the Go-side view of a job. -/
structure Job where
  ID : UUID := 0
  Type_ : String := ""
  Status : String := ""
  Priority : Int := 0
  Payload : Obj := []
  CreatedAt : Time := 0
  StartedAt : Option Time := none
  CompletedAt : Option Time := none
  Attempts : Nat := 0
  MaxAttempts : Int := 0
  ErrorMessage : String := ""
  WorkerID : String := ""
  NextAttemptAfter : Time := 0

/-- A row of `job_queue`; nullable columns are options.  The `attempts` column
starts at zero and is only ever rewritten as `attempts + 1`, so it is a natural
number.  The `payload` column is written by `EnqueueJob` from a
`map[string]interface{}`, so decoding it back into one cannot fail. -/
structure JobRow where
  id : UUID
  job_type : String
  status : String
  priority : Int
  payload : Obj
  created_at : Time
  started_at : Option Time
  completed_at : Option Time
  attempts : Nat
  max_attempts : Int
  error_message : Option String
  worker_id : Option String
  next_attempt_after : Option Time

/-- The table `job_queue`, in physical order. -/
abbrev JobTable := List JobRow

/-- The row filter of the claim query:
`status = 'pending' AND next_attempt_after <= NOW()`.  A comparison with NULL
is not true. -/
def claimable (now : Time) (r : JobRow) : Bool :=
  r.status == "pending" &&
    (match r.next_attempt_after with
     | some t => decide (t ≤ now)
     | none => false)

/-- The row order of the claim query: `ORDER BY priority, created_at`. -/
def claimOrder (a b : JobRow) : Prop :=
  a.priority < b.priority ∨ (a.priority = b.priority ∧ a.created_at ≤ b.created_at)

instance claimOrder_decidable : DecidableRel claimOrder := fun a b =>
  inferInstanceAs
    (Decidable (a.priority < b.priority ∨ (a.priority = b.priority ∧ a.created_at ≤ b.created_at)))

instance claimOrder_isTotal : IsTotal JobRow claimOrder where
  total a b := by
    unfold claimOrder
    rcases lt_trichotomy a.priority b.priority with h | h | h
    · exact Or.inl (Or.inl h)
    · rcases le_total a.created_at b.created_at with h2 | h2
      · exact Or.inl (Or.inr ⟨h, h2⟩)
      · exact Or.inr (Or.inr ⟨h.symm, h2⟩)
    · exact Or.inr (Or.inl h)

instance claimOrder_isTrans : IsTrans JobRow claimOrder where
  trans a b c := by
    unfold claimOrder
    rintro (h1 | ⟨h1, h1'⟩) (h2 | ⟨h2, h2'⟩)
    · exact Or.inl (lt_trans h1 h2)
    · exact Or.inl (h2 ▸ h1)
    · exact Or.inl (h1 ▸ h2)
    · exact Or.inr ⟨h1.trans h2, le_trans h1' h2'⟩

/-- The rows the claim query may pick, in the order it ranks them. -/
def claimQueue (now : Time) (tbl : JobTable) : List JobRow :=
  (tbl.filter (claimable now)).insertionSort claimOrder

/-- The sub-select of `ClaimJob`: `SELECT id ... ORDER BY ... LIMIT 1`. -/
def claimSelect (now : Time) (tbl : JobTable) : Option UUID :=
  (claimQueue now tbl).head?.map (fun r => r.id)

/-- The `SET` clause of `ClaimJob`. -/
def claimUpdate (now : Time) (workerID : String) (r : JobRow) : JobRow :=
  { r with
    status := "processing"
    started_at := some now
    worker_id := some workerID
    attempts := r.attempts + 1 }

/-- The `RETURNING ... Scan` of `ClaimJob`: eleven columns are read back;
`worker_id` and `completed_at` are not among them.  A NULL
`next_attempt_after` cannot be scanned into a `time.Time`. -/
def scanJob (r : JobRow) : Except String Job :=
  match r.next_attempt_after with
  | none => .error "failed to claim job"
  | some naa =>
    .ok { ID := r.id
          Type_ := r.job_type
          Status := r.status
          Priority := r.priority
          Payload := r.payload
          CreatedAt := r.created_at
          StartedAt := r.started_at
          Attempts := r.attempts
          MaxAttempts := r.max_attempts
          ErrorMessage := r.error_message.getD ""
          NextAttemptAfter := naa }

/-- `Repository.ClaimJob` at database time `now`: the new table and the
returned `(*models.Job, error)`.  No row selected is `pgx.ErrNoRows`, returned
as `nil, nil`.  An error leaves the transaction uncommitted, hence the table
as it was. -/
def ClaimJob (now : Time) (workerID : String) (tbl : JobTable) :
    JobTable × Except String (Option Job) :=
  match claimSelect now tbl with
  | none => (tbl, .ok none)
  | some id =>
    match tbl.find? (fun r => r.id == id) with
    | none => (tbl, .ok none)
    | some r =>
      match scanJob (claimUpdate now workerID r) with
      | .error e => (tbl, .error e)
      | .ok job =>
        (tbl.map (fun r => if r.id = id then claimUpdate now workerID r else r), .ok (some job))

/-- `Repository.CompleteJob`, with `now` the worker's `time.Now()`. -/
def CompleteJob (now : Time) (jobID : UUID) (tbl : JobTable) : JobTable :=
  tbl.map (fun r =>
    if r.id = jobID then { r with status := "completed", completed_at := some now } else r)

/-- The `SET` clause of `FailJob`; every `attempts` on its right-hand sides is
the value before the update. -/
def failUpdate (now : Time) (errorMsg : String) (r : JobRow) : JobRow :=
  { r with
    status := if (r.attempts : Int) ≥ r.max_attempts then "failed" else "pending"
    error_message := some errorMsg
    next_attempt_after :=
      if (r.attempts : Int) ≥ r.max_attempts then none
      else some (now + 2 ^ r.attempts * minute) }

/-- `Repository.FailJob` at database time `now`. -/
def FailJob (now : Time) (jobID : UUID) (errorMsg : String) (tbl : JobTable) : JobTable :=
  tbl.map (fun r => if r.id = jobID then failUpdate now errorMsg r else r)

/-- A run of `ClaimJob` calls taken one after the other, each issued by some
worker at some database time; the results are listed in call order. -/
def claimAll : List (String × Time) → JobTable → JobTable × List (Except String (Option Job))
  | [], tbl => (tbl, [])
  | c :: cs, tbl =>
    let step := ClaimJob c.2 c.1 tbl
    let rest := claimAll cs step.1
    (rest.1, step.2 :: rest.2)

/-- The ids of the jobs a run of calls handed out, in call order. -/
def returnedIDs (rs : List (Except String (Option Job))) : List UUID :=
  rs.filterMap (fun res =>
    match res with
    | .ok (some j) => some j.ID
    | _ => none)

/-- A sample row: pending, claimable from time 10 on. -/
def sampleRow (id : UUID) (priority : Int) (created : Time) : JobRow :=
  { id := id
    job_type := "fetch_package"
    status := "pending"
    priority := priority
    payload := []
    created_at := created
    started_at := none
    completed_at := none
    attempts := 0
    max_attempts := 3
    error_message := none
    worker_id := none
    next_attempt_after := some 10 }

/-- A sample table: job 2 ranks first (priority 1), then job 3, then job 1. -/
def sampleTable : JobTable :=
  [sampleRow 1 5 8, sampleRow 2 1 9, sampleRow 3 5 7]

/-- One pass of the loop of `Worker.Start` in which a job is claimed and
`processJob` returns an error: the times of the claim and of the `FailJob`
call, the worker and the error text. -/
structure FailedRound where
  claimAt : Time
  workerID : String
  failAt : Time
  errorMsg : String

/-- Passes of `Worker.Start` that each claim the job `jobID` and then fail it
(`ClaimJob`, then `FailJob(job.ID, err.Error())`).  `none` when some pass
claims nothing or claims another job. -/
def failedRounds (jobID : UUID) : List FailedRound → JobTable → Option JobTable
  | [], tbl => some tbl
  | rd :: rds, tbl =>
    match ClaimJob rd.claimAt rd.workerID tbl with
    | (tbl1, .ok (some job)) =>
      if job.ID = jobID then failedRounds jobID rds (FailJob rd.failAt job.ID rd.errorMsg tbl1)
      else none
    | _ => none

/-- Two failing passes on sample job 2, each claim late enough for the backoff
of the failure before it. -/
def sampleRounds : List FailedRound :=
  [{ claimAt := 10, workerID := "worker-1", failAt := 20, errorMsg := "status 500" },
   { claimAt := 20 + 2 * minute, workerID := "worker-2", failAt := 30 + 2 * minute,
     errorMsg := "status 500" }]

/-- A third failing pass on sample job 2. -/
def sampleLastRound : FailedRound :=
  { claimAt := 30 + 6 * minute, workerID := "worker-1", failAt := 40 + 6 * minute,
    errorMsg := "status 500 again" }

/-- A sample job that has reached the terminal status `failed`. -/
def sampleFailedRow : JobRow :=
  { sampleRow 7 5 1 with
    status := "failed"
    attempts := 3
    error_message := some "status 500"
    next_attempt_after := none }

/-- A sample job that has reached the terminal status `completed` on its first
attempt. -/
def sampleCompletedRow : JobRow :=
  { sampleRow 8 5 2 with
    status := "completed"
    attempts := 1
    completed_at := some 50 }

/-- A job is terminal when its status is `completed` or `failed`. -/
def terminal (r : JobRow) : Prop := r.status = "completed" ∨ r.status = "failed"

/-! ## Numbers of a decoded JSON document -/

/-- The `float64` that `encoding/json` stores for the integer literal `n`:
`n` rounded to 53 significant bits, ties to even; `none` when the rounded
value overflows `float64`, which makes `json.Unmarshal` fail. -/
def Float64.ofInt (n : Int) : Option Float64 :=
  let a := n.natAbs
  if a < 2 ^ 53 then some ⟨n, 0⟩
  else
    let e := (Nat.toDigits 2 a).length - 53
    let q := a / 2 ^ e
    let r := a % 2 ^ e
    let half := 2 ^ (e - 1)
    let q' := if half < r ∨ (r = half ∧ q % 2 = 1) then q + 1 else q
    if 1024 < (Nat.toDigits 2 (q' * 2 ^ e)).length then none else some ⟨n.sign * q', e⟩

/-- Go's conversion `int(f)` on a 64-bit platform: the fraction is dropped; a
value outside `int64` gives the platform's result, which on amd64 is the
least `int64`. -/
def Float64.toInt (f : Float64) : Int :=
  let t := if 0 ≤ f.exp then f.mant * 2 ^ f.exp.toNat else Int.tdiv f.mant (2 ^ (-f.exp).toNat)
  if -(2 ^ 63) ≤ t ∧ t < 2 ^ 63 then t else -(2 ^ 63)

/-! ## The registry client (`internal/discovery/client.go`) -/

/-- An HTTP response: the status code and what reading the body gives. -/
structure Response where
  StatusCode : Int
  Body : Except String String

/-- The network and the decoders of the standard library, as seen from the
callers: whether a request for a URL can be built, what performing it gives,
what `json.Unmarshal` makes of a body as a `map[string]interface{}`, and what
decoding a body into `struct{ Downloads int64 }` gives. -/
structure Net where
  NewRequest : String → Option String
  Do : String → Except String Response
  Unmarshal : String → Except String Obj
  DecodeDownloads : String → Except String Int

/-- The limit that `GetChanges` places in the request. -/
def changesLimit (limit : Int) : Int :=
  if limit > 10000 then 10000
  else if limit < 1 then 1000
  else limit

/-- The request, status check, body read and decoding shared by the client's
methods. -/
def getJSON (net : Net) (url : String) (withBody : Bool) : Except String Obj :=
  match net.NewRequest url with
  | some e => .error ("failed to create request: " ++ e)
  | none =>
    match net.Do url with
    | .error e => .error ("failed to execute request: " ++ e)
    | .ok resp =>
      if resp.StatusCode ≠ 200 then
        .error ("API returned status code " ++ toString resp.StatusCode ++
          (if withBody then ": " ++ (match resp.Body with | .ok b => b | .error _ => "") else ""))
      else
        match resp.Body with
        | .error e => .error ("failed to read response body: " ++ e)
        | .ok body =>
          match net.Unmarshal body with
          | .error e => .error ("failed to unmarshal response: " ++ e)
          | .ok result => .ok result

/-- `Client.GetPackage`. -/
def GetPackage (net : Net) (packageName : String) : Except String Obj :=
  getJSON net ("https://registry.npmjs.org" ++ "/" ++ packageName) false

/-- `Client.GetChanges`. -/
def GetChanges (net : Net) (since : String) (limit : Int) : Except String Obj :=
  getJSON net
    ("https://replicate.npmjs.com/registry/_changes" ++ "?limit=" ++
      toString (changesLimit limit) ++ "&since=" ++ since) true

/-! ## The job queue as the discovery loop sees it (`internal/discovery/job_queue.go`) -/

/-- Modelled from the spec: the column defaults of `job_queue`, whose
migration is not among the sources.  `EnqueueJob` inserts only `job_type`,
`status`, `priority`, `payload` and `max_attempts`; the spec gives a new row
`Attempts = 0` and `NextAttemptAfter = now`; `created_at` is taken to be the
insertion time as well and the remaining nullable columns NULL. -/
def insertedRow (id : UUID) (now : Time) (jobType : String) (priority : Int) (payload : Obj)
    (maxAttempts : Int) : JobRow :=
  { id := id
    job_type := jobType
    status := "pending"
    priority := priority
    payload := payload
    created_at := now
    started_at := none
    completed_at := none
    attempts := 0
    max_attempts := maxAttempts
    error_message := none
    worker_id := none
    next_attempt_after := some now }

/-- `JobQueueRepository.EnqueueJob`; `db` is what the INSERT gives: an error, or
the generated id and the database's `NOW()`.  Marshalling a payload of strings
and instants does not fail. -/
def EnqueueJob (db : Except String (UUID × Time)) (job : Job) (tbl : JobTable) :
    JobTable × Except String UUID :=
  match db with
  | .error e => (tbl, .error ("failed to insert job: " ++ e))
  | .ok (id, now) =>
    (tbl ++ [insertedRow id now job.Type_ job.Priority job.Payload job.MaxAttempts], .ok id)

/-- A row of `scrape_progress`. -/
structure ProgressRow where
  id : String
  last_sequence : String
  total_processed : Int
  last_updated : Time
deriving DecidableEq

/-- `JobQueueRepository.GetScrapeProgress` on a database that answers. -/
def GetScrapeProgress (id : String) (tbl : List ProgressRow) : String × Int :=
  match tbl.find? (fun r => r.id == id) with
  | some r => (r.last_sequence, r.total_processed)
  | none => ("0", 0)

/-- `JobQueueRepository.UpdateScrapeProgress`; `db` is what the upsert gives: an
error, or the database's `NOW()`. -/
def UpdateScrapeProgress (db : Except String Time) (id lastSequence : String)
    (totalProcessed : Int) (tbl : List ProgressRow) : List ProgressRow × Option String :=
  match db with
  | .error e => (tbl, some ("failed to update scrape progress: " ++ e))
  | .ok now =>
    if tbl.any (fun r => r.id == id) then
      (tbl.map (fun r =>
        if r.id = id then
          { r with
            last_sequence := lastSequence
            total_processed := totalProcessed
            last_updated := now }
        else r), none)
    else
      (tbl ++ [{ id := id
                 last_sequence := lastSequence
                 total_processed := totalProcessed
                 last_updated := now }], none)

/-! ## The discovery loop (`internal/discovery/scraper.go`) -/

/-- `discovery.Config`. -/
structure Config where
  BatchSize : Int := 1000
  RequestDelay : Int := 2000000000
  MaxRetries : Int := 3

/-- What surrounds one `processBatch` call: the network, the clock read when
the `i`-th entry of the batch is turned into a job, what the INSERT for the
`i`-th entry gives, and what the checkpoint upsert gives. -/
structure BatchEnv where
  net : Net
  Now : Nat → Time
  Insert : Nat → Except String (UUID × Time)
  Upsert : Except String Time

/-- The mutable fields of `Scraper` together with the two tables it writes.
`totalProcessed` is an `int64` counter that stays far below `2^63`. -/
structure Discovery where
  lastSequence : String
  totalProcessed : Int
  queue : JobTable
  progress : List ProgressRow

/-- The checks at the top of the loop body of `processBatch`: the package id of
an entry that is to be enqueued, `none` for an entry that is skipped.  Decoded
JSON strings are valid UTF-8, so the first byte is `_` exactly when the first
character is, and there is no byte exactly when there is no character. -/
def changeID (result : Value) : Option String :=
  match asObj (some result) with
  | none => none
  | some change =>
    if asBool (change.get "deleted") = some true then none
    else
      match asString (change.get "id") with
      | none => none
      | some id =>
        if id.length = 0 then none
        else if id.get 0 = '_' then none
        else some id

/-- The job `processBatch` builds for a package id. -/
def changeJob (now : Time) (id : String) : Job :=
  { Type_ := "fetch_package"
    Status := "pending"
    Priority := 5
    MaxAttempts := 3
    Payload := [("package_name", Value.str id), ("created_at", Value.time now)] }

/-- The `for _, result := range results` loop of `processBatch`, from entry
number `i` on.  A failed `EnqueueJob` is logged and the loop continues. -/
def enqueueChanges (env : BatchEnv) : List Value → Nat → Discovery → Discovery
  | [], _, s => s
  | result :: rest, i, s =>
    match changeID result with
    | none => enqueueChanges env rest (i + 1) s
    | some id =>
      match EnqueueJob (env.Insert i) (changeJob (env.Now i) id) s.queue with
      | (_, .error _) => enqueueChanges env rest (i + 1) s
      | (queue, .ok _) =>
        enqueueChanges env rest (i + 1)
          { s with queue := queue, totalProcessed := s.totalProcessed + 1 }

/-- The normalisation of `last_seq` in `processBatch`; `%d` of an `int` is its
decimal rendering. -/
def newLastSeq (changes : Obj) : String :=
  match asString (changes.get "last_seq") with
  | some lastSeq => lastSeq
  | none =>
    match asFloat64 (changes.get "last_seq") with
    | some lastSeqNum => toString lastSeqNum.toInt
    | none =>
      match asObj (changes.get "last_seq") with
      | none => ""
      | some lastSeqObj =>
        match lastSeqObj.get "seq" with
        | none => ""
        | some seq =>
          match asString (some seq) with
          | some seqStr => seqStr
          | none =>
            match asFloat64 (some seq) with
            | some seqNum => toString seqNum.toInt
            | none => ""

/-- `Scraper.processBatch`: the state afterwards and the error returned.  The
sleeps and log lines are left out. -/
def processBatch (config : Config) (env : BatchEnv) (s : Discovery) :
    Discovery × Option String :=
  match GetChanges env.net s.lastSequence config.BatchSize with
  | .error e => (s, some ("failed to fetch changes: " ++ e))
  | .ok changes =>
    match asArr (changes.get "results") with
    | none => (s, some "unexpected response format: results not found or not an array")
    | some results =>
      if results.length = 0 then (s, none)
      else
        let s1 := enqueueChanges env results 0 s
        let seq := newLastSeq changes
        if seq ≠ "" ∧ seq ≠ s1.lastSequence then
          let s2 := { s1 with lastSequence := seq }
          let up := UpdateScrapeProgress env.Upsert "npm_changes" s2.lastSequence
            s2.totalProcessed s2.progress
          ({ s2 with progress := up.1 }, none)
        else (s1, none)

/-- The spec's rule for an entry of the change feed (§4.5, step 2): skipped
when `deleted` is true, skipped when `id` is empty or begins with `_`;
otherwise the entry names the package `id`. -/
def publicPackageID : Value → Option String
  | Value.obj change =>
    match Obj.get change "deleted" with
    | some (Value.bool true) => none
    | _ =>
      match Obj.get change "id" with
      | some (Value.str id) =>
        match id.data with
        | [] => none
        | c :: _ => if c = '_' then none else some id
      | _ => none
  | _ => none

/-- The rows a batch adds to `job_queue`, from entry number `i` on: one for
each entry that names a package and whose INSERT succeeds, in feed order. -/
def enqueuedRows (env : BatchEnv) : List Value → Nat → List JobRow
  | [], _ => []
  | result :: rest, i =>
    match publicPackageID result, env.Insert i with
    | some id, .ok (uid, now) =>
      insertedRow uid now "fetch_package" 5
        [("package_name", Value.str id), ("created_at", Value.time (env.Now i))] 3 ::
        enqueuedRows env rest (i + 1)
    | _, _ => enqueuedRows env rest (i + 1)

/-- A sample decoded change feed: one deleted entry, one design document and
the packages `left-pad` and `lodash`, with `last_seq: 42`. -/
def sampleChanges : Obj :=
  [("results", Value.arr
      [Value.obj [("id", Value.str "gone"), ("deleted", Value.bool true)],
       Value.obj [("id", Value.str "left-pad")],
       Value.obj [("id", Value.str "_design/app")],
       Value.obj [("id", Value.str "lodash")]]),
   ("last_seq", Value.num ⟨42, 0⟩)]

/-- The entries of the sample change feed. -/
def sampleResults : List Value :=
  [Value.obj [("id", Value.str "gone"), ("deleted", Value.bool true)],
   Value.obj [("id", Value.str "left-pad")],
   Value.obj [("id", Value.str "_design/app")],
   Value.obj [("id", Value.str "lodash")]]

/-- A sample registry: every request is answered 200, every body decodes to
the sample change feed, and the monthly download count reads 2000000. -/
def sampleNet : Net :=
  { NewRequest := fun _ => none
    Do := fun _ => .ok { StatusCode := 200, Body := .ok "body" }
    Unmarshal := fun _ => .ok sampleChanges
    DecodeDownloads := fun _ => .ok 2000000 }

/-- A sample surrounding in which every statement succeeds. -/
def sampleEnv : BatchEnv :=
  { net := sampleNet
    Now := fun i => 1000 + i
    Insert := fun i => .ok (100 + i, 2000 + i)
    Upsert := .ok 3000 }

/-- A sample surrounding in which every INSERT fails and the upsert succeeds. -/
def sampleEnvInsertFails : BatchEnv :=
  { sampleEnv with Insert := fun _ => .error "connection reset" }

/-- The discovery loop on its first run. -/
def sampleDiscovery : Discovery :=
  { lastSequence := "0", totalProcessed := 0, queue := [], progress := [] }

/-! ## Packages and the extractor (`internal/models/package.go`,
`internal/processor/extractor.go`) -/

/-- `models.Package`.  `PopularityScore` is a `float64` whose arithmetic is
taken as exact, hence a rational. -/
structure Package where
  ID : UUID := 0
  Name : String := ""
  Version : String := ""
  Description : String := ""
  Author : String := ""
  Homepage : String := ""
  Repository : String := ""
  License : String := ""
  CreatedAt : Time := 0
  UpdatedAt : Time := 0
  Downloads : Int := 0
  PopularityScore : ℚ := 0
  LastUpdated : Time := 0
deriving DecidableEq

/-- `models.PackageScript`. -/
structure PackageScript where
  ID : UUID := 0
  PackageID : UUID := 0
  ScriptType : String := ""
  Content : String := ""
  CreatedAt : Time := 0
  UpdatedAt : Time := 0
deriving DecidableEq

/-- What the extractor takes from its surroundings: `time.Parse(time.RFC3339, ·)`
and the two readings of `time.Now()` used for a missing `CreatedAt` and a
missing `UpdatedAt`. -/
structure ExtractEnv where
  Parse : String → Option Time
  NowCreated : Time
  NowUpdated : Time

/-- `Time.IsZero`. -/
def isZero (t : Time) : Bool := t == 0

/-- `Extractor.ExtractPackageData`. -/
def ExtractPackageData (env : ExtractEnv) (pkgName : String) (rawData : Obj) :
    Except String Package :=
  let pkg : Package := { Name := pkgName }
  let pkg :=
    match asString (rawData.get "description") with
    | some description => { pkg with Description := description }
    | none => pkg
  let pkg :=
    match asObj (rawData.get "dist-tags") with
    | some distTags =>
      match asString (distTags.get "latest") with
      | some latest => { pkg with Version := latest }
      | none => pkg
    | none => pkg
  let pkg :=
    match asObj (rawData.get "author") with
    | some author =>
      match asString (author.get "name") with
      | some name => { pkg with Author := name }
      | none => pkg
    | none =>
      match asString (rawData.get "author") with
      | some authorStr => { pkg with Author := authorStr }
      | none => pkg
  let pkg :=
    match asString (rawData.get "homepage") with
    | some homepage => { pkg with Homepage := homepage }
    | none => pkg
  let pkg :=
    match asObj (rawData.get "repository") with
    | some repo =>
      match asString (repo.get "url") with
      | some url => { pkg with Repository := url }
      | none => pkg
    | none =>
      match asString (rawData.get "repository") with
      | some repoStr => { pkg with Repository := repoStr }
      | none => pkg
  let pkg :=
    match asString (rawData.get "license") with
    | some license => { pkg with License := license }
    | none =>
      match asArr (rawData.get "licenses") with
      | some (first :: _) =>
        match asObj (some first) with
        | some licenseObj =>
          match asString (licenseObj.get "type") with
          | some licType => { pkg with License := licType }
          | none => pkg
        | none => pkg
      | _ => pkg
  let pkg :=
    match asObj (rawData.get "time") with
    | some times =>
      let pkg :=
        match asString (times.get "created") with
        | some created =>
          match env.Parse created with
          | some t => { pkg with CreatedAt := t }
          | none => pkg
        | none => pkg
      match asString (times.get "modified") with
      | some modified =>
        match env.Parse modified with
        | some t => { pkg with UpdatedAt := t }
        | none => pkg
      | none => pkg
    | none => pkg
  let pkg := if isZero pkg.CreatedAt then { pkg with CreatedAt := env.NowCreated } else pkg
  let pkg := if isZero pkg.UpdatedAt then { pkg with UpdatedAt := env.NowUpdated } else pkg
  .ok pkg

/-- `Extractor.ExtractScripts`. -/
def ExtractScripts (rawData : Obj) (packageID : UUID) (version : String) :
    Except String (List PackageScript) :=
  match asObj (rawData.get "versions") with
  | none => .error "versions data not found or invalid"
  | some versionsData =>
    match asObj (versionsData.get version) with
    | none => .error ("version " ++ version ++ " not found or invalid")
    | some versionData =>
      match asObj (versionData.get "scripts") with
      | none => .ok []
      | some scriptsData =>
        .ok (["install", "preinstall", "postinstall"].foldl (fun scripts scriptType =>
          match asString (scriptsData.get scriptType) with
          | some content =>
            if content ≠ "" then
              scripts ++ [{ PackageID := packageID, ScriptType := scriptType, Content := content }]
            else scripts
          | none => scripts) [])

/-- `Extractor.CalculatePopularityScore`, in exact arithmetic. -/
def CalculatePopularityScore (downloads : Int) : ℚ :=
  min 1 ((downloads : ℚ) / 1000000)

/-! ## The worker (`internal/processor/worker.go`) -/

/-- `Worker.fetchDownloadCount`. -/
def fetchDownloadCount (net : Net) (pkgName : String) : Except String Int :=
  let url := "https://api.npmjs.org/downloads/point/last-month/" ++ pkgName
  match net.NewRequest url with
  | some e => .error ("failed to create request: " ++ e)
  | none =>
    match net.Do url with
    | .error e => .error ("failed to fetch download stats: " ++ e)
    | .ok resp =>
      if resp.StatusCode = 404 then .ok 0
      else if resp.StatusCode ≠ 200 then
        .error ("API returned status code " ++ toString resp.StatusCode)
      else
        match resp.Body with
        | .error e => .error ("failed to decode download stats: " ++ e)
        | .ok body =>
          match net.DecodeDownloads body with
          | .error e => .error ("failed to decode download stats: " ++ e)
          | .ok downloads => .ok downloads

/-- What surrounds a worker: the network, the extractor's surroundings, and
what `StorePackage` and `StoreScript` give for each argument. -/
structure WorkerEnv where
  net : Net
  extract : ExtractEnv
  StorePackage : Package → Except String UUID
  StoreScript : PackageScript → Option String

/-- What one `processFetchPackageJob` call did: the error it returned, the
package it passed to `StorePackage` if it got that far, and the scripts it
passed to `StoreScript`, each with the error that call gave. -/
structure FetchOutcome where
  err : Option String
  stored : Option Package
  scripts : List (PackageScript × Option String)

/-- `Worker.processFetchPackageJob`. -/
def processFetchPackageJob (env : WorkerEnv) (job : Job) : FetchOutcome :=
  match asString (job.Payload.get "package_name") with
  | none => ⟨some "invalid package name in job payload", none, []⟩
  | some pkgName =>
    if pkgName = "" then ⟨some "invalid package name in job payload", none, []⟩
    else
      match GetPackage env.net pkgName with
      | .error e => ⟨some ("failed to fetch package data: " ++ e), none, []⟩
      | .ok rawPackage =>
        match ExtractPackageData env.extract pkgName rawPackage with
        | .error e => ⟨some ("failed to extract package data: " ++ e), none, []⟩
        | .ok pkg =>
          let downloads :=
            match fetchDownloadCount env.net pkgName with
            | .ok downloads => downloads
            | .error _ => 0
          let pkg :=
            { pkg with
              Downloads := downloads
              PopularityScore := CalculatePopularityScore downloads }
          match env.StorePackage pkg with
          | .error e => ⟨some ("failed to store package: " ++ e), some pkg, []⟩
          | .ok packageID =>
            match ExtractScripts rawPackage packageID pkg.Version with
            | .error _ => ⟨none, some pkg, []⟩
            | .ok scripts => ⟨none, some pkg, scripts.map (fun s => (s, env.StoreScript s))⟩

/-- `Worker.processJob`. -/
def processJob (env : WorkerEnv) (job : Job) : FetchOutcome :=
  if job.Type_ = "fetch_package" then processFetchPackageJob env job
  else ⟨some ("unknown job type: " ++ job.Type_), none, []⟩

/-! ### The steps of `ExtractPackageData`, one per field it reads -/

/-- The `description` step of `ExtractPackageData`. -/
def withDescription (rawData : Obj) (pkg : Package) : Package :=
  match asString (rawData.get "description") with
  | some description => { pkg with Description := description }
  | none => pkg

/-- The `dist-tags` step of `ExtractPackageData`. -/
def withVersion (rawData : Obj) (pkg : Package) : Package :=
  match asObj (rawData.get "dist-tags") with
  | some distTags =>
    match asString (distTags.get "latest") with
    | some latest => { pkg with Version := latest }
    | none => pkg
  | none => pkg

/-- The `author` step of `ExtractPackageData`. -/
def withAuthor (rawData : Obj) (pkg : Package) : Package :=
  match asObj (rawData.get "author") with
  | some author =>
    match asString (author.get "name") with
    | some name => { pkg with Author := name }
    | none => pkg
  | none =>
    match asString (rawData.get "author") with
    | some authorStr => { pkg with Author := authorStr }
    | none => pkg

/-- The `homepage` step of `ExtractPackageData`. -/
def withHomepage (rawData : Obj) (pkg : Package) : Package :=
  match asString (rawData.get "homepage") with
  | some homepage => { pkg with Homepage := homepage }
  | none => pkg

/-- The `repository` step of `ExtractPackageData`. -/
def withRepository (rawData : Obj) (pkg : Package) : Package :=
  match asObj (rawData.get "repository") with
  | some repo =>
    match asString (repo.get "url") with
    | some url => { pkg with Repository := url }
    | none => pkg
  | none =>
    match asString (rawData.get "repository") with
    | some repoStr => { pkg with Repository := repoStr }
    | none => pkg

/-- The `license` / `licenses` step of `ExtractPackageData`. -/
def withLicense (rawData : Obj) (pkg : Package) : Package :=
  match asString (rawData.get "license") with
  | some license => { pkg with License := license }
  | none =>
    match asArr (rawData.get "licenses") with
    | some (first :: _) =>
      match asObj (some first) with
      | some licenseObj =>
        match asString (licenseObj.get "type") with
        | some licType => { pkg with License := licType }
        | none => pkg
      | none => pkg
    | _ => pkg

/-- The `time` step of `ExtractPackageData`. -/
def withTimes (env : ExtractEnv) (rawData : Obj) (pkg : Package) : Package :=
  match asObj (rawData.get "time") with
  | some times =>
    let pkg :=
      match asString (times.get "created") with
      | some created =>
        match env.Parse created with
        | some t => { pkg with CreatedAt := t }
        | none => pkg
      | none => pkg
    match asString (times.get "modified") with
    | some modified =>
      match env.Parse modified with
      | some t => { pkg with UpdatedAt := t }
      | none => pkg
    | none => pkg
  | none => pkg

/-- The two `IsZero` checks that close `ExtractPackageData`. -/
def withDefaultTimes (env : ExtractEnv) (pkg : Package) : Package :=
  let pkg := if isZero pkg.CreatedAt then { pkg with CreatedAt := env.NowCreated } else pkg
  if isZero pkg.UpdatedAt then { pkg with UpdatedAt := env.NowUpdated } else pkg

/-! ### The extraction rules of the specification (§4.3), field by field -/

/-- The spec's rule for `Description`: the `description` string, else empty. -/
def descriptionOf (rawData : Obj) : String :=
  match rawData.get "description" with
  | some (Value.str s) => s
  | _ => ""

/-- The spec's rule for `Version`: `dist-tags.latest`, else empty. -/
def versionOf (rawData : Obj) : String :=
  match rawData.get "dist-tags" with
  | some (Value.obj distTags) =>
    match Obj.get distTags "latest" with
    | some (Value.str s) => s
    | _ => ""
  | _ => ""

/-- The spec's rule for `Author`: the string form, or `.name` of the object
form, else empty. -/
def authorOf (rawData : Obj) : String :=
  match rawData.get "author" with
  | some (Value.str s) => s
  | some (Value.obj author) =>
    match Obj.get author "name" with
    | some (Value.str s) => s
    | _ => ""
  | _ => ""

/-- The spec's rule for `Homepage`: the `homepage` string, else empty. -/
def homepageOf (rawData : Obj) : String :=
  match rawData.get "homepage" with
  | some (Value.str s) => s
  | _ => ""

/-- The spec's rule for `Repository`: the string form, or `.url` of the object
form, else empty. -/
def repositoryOf (rawData : Obj) : String :=
  match rawData.get "repository" with
  | some (Value.str s) => s
  | some (Value.obj repo) =>
    match Obj.get repo "url" with
    | some (Value.str s) => s
    | _ => ""
  | _ => ""

/-- The spec's rule for `License`: the `license` string, or the `type` of the
first entry of the `licenses` array, else empty. -/
def licenseOf (rawData : Obj) : String :=
  match rawData.get "license" with
  | some (Value.str s) => s
  | _ =>
    match rawData.get "licenses" with
    | some (Value.arr (Value.obj first :: _)) =>
      match Obj.get first "type" with
      | some (Value.str s) => s
      | _ => ""
    | _ => ""

/-- The value of `time.<key>` when it is a string that parses as RFC3339. -/
def parsedTime (env : ExtractEnv) (rawData : Obj) (key : String) : Option Time :=
  match rawData.get "time" with
  | some (Value.obj times) =>
    match Obj.get times key with
    | some (Value.str s) => env.Parse s
    | _ => none
  | _ => none

/-- A sample extractor surrounding.  `0001-01-01T00:00:00Z` is well-formed
RFC3339 and denotes the zero `time.Time`; `2014-01-01T00:00:00Z` lies
63524131200 seconds after it; nothing else parses. -/
def sampleExtractEnv : ExtractEnv :=
  { Parse := fun s =>
      if s = "0001-01-01T00:00:00Z" then some 0
      else if s = "2014-01-01T00:00:00Z" then some 63524131200000000000
      else none
    NowCreated := 63900000000000000000
    NowUpdated := 63900000000000000001 }

/-- A sample document whose `time.created` is the zero instant and whose
`time.modified` is in 2014. -/
def sampleZeroTimeDoc : Obj :=
  [("time", Value.obj [("created", Value.str "0001-01-01T00:00:00Z"),
                       ("modified", Value.str "2014-01-01T00:00:00Z")])]

/-- The body of the lifecycle script of type `scriptType` recorded for one
version: the string at `scripts[scriptType]` when there is one and it is not
empty. -/
def scriptBody (versionData : Obj) (scriptType : String) : Option String :=
  match Obj.get versionData "scripts" with
  | some (Value.obj scripts) =>
    match Obj.get scripts scriptType with
    | some (Value.str content) => if content = "" then none else some content
    | _ => none
  | _ => none

/-- A sample package document: version 1.3.0 has a `postinstall` script, an
empty `install` script and a `test` script; version 1.2.0 has a `preinstall`
script. -/
def sampleScriptsDoc : Obj :=
  [("versions", Value.obj
      [("1.2.0", Value.obj [("scripts", Value.obj [("preinstall", Value.str "echo old")])]),
       ("1.3.0", Value.obj [("scripts", Value.obj
          [("test", Value.str "mocha"), ("install", Value.str ""),
           ("postinstall", Value.str "node build.js")])])])]

/-- One Job Store operation on the job table. -/
inductive StoreOp where
  | claim (now : Time) (workerID : String)
  | fail (now : Time) (jobID : UUID) (errorMsg : String)
  | complete (now : Time) (jobID : UUID)

/-- The table after one Job Store operation. -/
def StoreOp.apply : StoreOp → JobTable → JobTable
  | StoreOp.claim now workerID, tbl => (ClaimJob now workerID tbl).1
  | StoreOp.fail now jobID errorMsg, tbl => FailJob now jobID errorMsg tbl
  | StoreOp.complete now jobID, tbl => CompleteJob now jobID tbl

/-- The table after a sequence of Job Store operations, taken in order. -/
def runOps (ops : List StoreOp) (tbl : JobTable) : JobTable :=
  ops.foldl (fun t op => op.apply t) tbl

/-- A sample surrounding in which every INSERT succeeds and the checkpoint
upsert fails. -/
def sampleEnvUpsertFails : BatchEnv :=
  { sampleEnv with Upsert := .error "connection reset" }

/-- A sample table with a backoff: job 1 (priority 5) is claimable from time 10
on, job 2 (priority 1, so ranked first) only from time 11 on. -/
def sampleBackoffTable : JobTable :=
  [sampleRow 1 5 8, { sampleRow 2 1 9 with next_attempt_after := some 11 }]

/-- The download count the worker goes on with: the fetched count, or 0 when
the fetch fails. -/
def downloadsOrZero (net : Net) (pkgName : String) : Int :=
  match fetchDownloadCount net pkgName with
  | .ok downloads => downloads
  | .error _ => 0

/-- The package the worker hands to `StorePackage` for a fetched document: the
extracted record with the download count and the popularity score set. -/
def packageToStore (env : WorkerEnv) (pkgName : String) (rawPackage : Obj) : Option Package :=
  match ExtractPackageData env.extract pkgName rawPackage with
  | .ok pkg =>
    some { pkg with
           Downloads := downloadsOrZero env.net pkgName
           PopularityScore := CalculatePopularityScore (downloadsOrZero env.net pkgName) }
  | .error _ => none

/-- The `StoreScript` calls the worker makes after `StorePackage` returned
`packageID`, each with the error it gave: one per extracted script, none when
`ExtractScripts` fails. -/
def scriptsToStore (env : WorkerEnv) (rawPackage : Obj) (packageID : UUID) (version : String) :
    List (PackageScript × Option String) :=
  match ExtractScripts rawPackage packageID version with
  | .ok scripts => scripts.map (fun s => (s, env.StoreScript s))
  | .error _ => []

/-- A sample package document: `dist-tags.latest` is 1.3.0, with the versions
and scripts of `sampleScriptsDoc`. -/
def samplePackageDoc : Obj :=
  ("dist-tags", Value.obj [("latest", Value.str "1.3.0")]) :: sampleScriptsDoc

/-- A sample network: the registry answers 200 for `left-pad` with the sample
package document; every other request, the download statistics among them, is
answered 500. -/
def sampleWorkerNet : Net :=
  { NewRequest := fun _ => none
    Do := fun url =>
      if url = "https://registry.npmjs.org/left-pad" then
        .ok { StatusCode := 200, Body := .ok "document" }
      else .ok { StatusCode := 500, Body := .ok "" }
    Unmarshal := fun _ => .ok samplePackageDoc
    DecodeDownloads := fun _ => .error "unexpected end of JSON input" }

/-- A sample worker surrounding: `StorePackage` succeeds with id 77 and every
`StoreScript` fails. -/
def sampleWorkerEnv : WorkerEnv :=
  { net := sampleWorkerNet
    extract := sampleExtractEnv
    StorePackage := fun _ => .ok 77
    StoreScript := fun _ => some "connection reset" }

/-- A sample claimed job for the package `left-pad`. -/
def sampleFetchJob : Job :=
  { changeJob 5 "left-pad" with ID := 9, Status := "processing", Attempts := 1 }

/-! ## Theorems -/

/-! ### The claim order -/

theorem claimOrder_refl (a : JobRow) : claimOrder a a :=
  Or.inr ⟨rfl, le_refl _⟩

theorem claimable_iff (now : Time) (r : JobRow) :
    claimable now r = true ↔
      r.status = "pending" ∧ ∃ t, r.next_attempt_after = some t ∧ t ≤ now := by
  unfold claimable
  cases h : r.next_attempt_after <;> simp

theorem claimUpdate_not_claimable (s now : Time) (w : String) (r : JobRow) :
    claimable s (claimUpdate now w r) = false := by
  simp [claimable, claimUpdate]

/-! ### Sorting commutes with filtering -/

theorem orderedInsert_eq_cons_of_forall_le (a : JobRow) (l : List JobRow)
    (h : ∀ b ∈ l, claimOrder a b) : l.orderedInsert claimOrder a = a :: l := by
  cases l with
  | nil => rfl
  | cons b l => exact List.orderedInsert_of_le claimOrder l (h b (List.mem_cons_self _ _))

theorem filter_orderedInsert (P : JobRow → Bool) (a : JobRow) (l : List JobRow)
    (hl : l.Sorted claimOrder) :
    (l.orderedInsert claimOrder a).filter P =
      if P a then (l.filter P).orderedInsert claimOrder a else l.filter P := by
  induction l with
  | nil => by_cases hP : P a = true <;> simp [hP]
  | cons b l ih =>
    have hl' := List.sorted_cons.mp hl
    by_cases hab : claimOrder a b
    · rw [List.orderedInsert_of_le claimOrder l hab]
      by_cases hP : P a = true
      · have hall : ∀ c ∈ (b :: l).filter P, claimOrder a c := by
          intro c hc
          have hc' := (List.mem_filter.mp hc).1
          rcases List.mem_cons.mp hc' with rfl | hc''
          · exact hab
          · exact IsTrans.trans _ _ _ hab (hl'.1 c hc'')
        rw [if_pos hP, orderedInsert_eq_cons_of_forall_le a _ hall]
        simp [List.filter_cons, hP]
      · rw [if_neg hP]
        simp [List.filter_cons, hP]
    · have step : (b :: l).orderedInsert claimOrder a = b :: l.orderedInsert claimOrder a := by
        simp [List.orderedInsert, hab]
      rw [step]
      by_cases hPb : P b = true
      · rw [List.filter_cons_of_pos hPb, ih hl'.2, List.filter_cons_of_pos hPb]
        by_cases hP : P a = true
        · simp [hP, List.orderedInsert, hab]
        · simp [hP]
      · rw [List.filter_cons_of_neg hPb, ih hl'.2, List.filter_cons_of_neg hPb]

theorem insertionSort_filter (P : JobRow → Bool) (l : List JobRow) :
    (l.filter P).insertionSort claimOrder = (l.insertionSort claimOrder).filter P := by
  induction l with
  | nil => rfl
  | cons a l ih =>
    by_cases hP : P a = true
    · rw [List.filter_cons_of_pos hP, List.insertionSort, List.insertionSort,
        filter_orderedInsert P a _ (List.sorted_insertionSort claimOrder l), if_pos hP, ih]
    · rw [List.filter_cons_of_neg hP, List.insertionSort,
        filter_orderedInsert P a _ (List.sorted_insertionSort claimOrder l), if_neg hP, ih]

/-! ### Tables with a primary key -/

theorem eq_of_id_eq {tbl : JobTable} (hid : (tbl.map (fun r => r.id)).Nodup)
    {a b : JobRow} (ha : a ∈ tbl) (hb : b ∈ tbl) (h : a.id = b.id) : a = b :=
  List.inj_on_of_nodup_map hid ha hb h

theorem find_by_id {tbl : JobTable} (hid : (tbl.map (fun r => r.id)).Nodup)
    {p : JobRow} (hp : p ∈ tbl) : tbl.find? (fun r => r.id == p.id) = some p := by
  induction tbl with
  | nil => cases hp
  | cons a l ih =>
    by_cases ha : a.id = p.id
    · have : a = p := eq_of_id_eq hid (List.mem_cons_self _ _) hp ha
      subst this
      simp
    · have hp' : p ∈ l := by
        rcases List.mem_cons.mp hp with rfl | h
        · exact absurd rfl ha
        · exact h
      rw [List.find?_cons_of_neg _ (by simpa using ha)]
      exact ih (List.nodup_cons.mp hid).2 hp'

theorem map_update_by_id {tbl : JobTable} (hid : (tbl.map (fun r => r.id)).Nodup)
    {p : JobRow} (hp : p ∈ tbl) (f : JobRow → JobRow) :
    tbl.map (fun r => if r.id = p.id then f r else r) =
      tbl.map (fun r => if r.id = p.id then f p else r) := by
  apply List.map_congr_left
  intro r hr
  by_cases h : r.id = p.id
  · rw [eq_of_id_eq hid hr hp h]
  · simp [h]

theorem claimQueue_mem {now : Time} {tbl : JobTable} {r : JobRow} :
    r ∈ claimQueue now tbl ↔ r ∈ tbl ∧ claimable now r = true := by
  unfold claimQueue
  rw [List.mem_insertionSort, List.mem_filter]

theorem claimQueue_nil {now : Time} {tbl : JobTable} (h : claimQueue now tbl = []) :
    ∀ r ∈ tbl, claimable now r = false := by
  intro r hr
  by_contra hc
  have : r ∈ claimQueue now tbl := claimQueue_mem.mpr ⟨hr, by simpa using hc⟩
  rw [h] at this
  cases this

theorem claimQueue_head_le {now : Time} {tbl : JobTable} {p : JobRow} {rest : List JobRow}
    (h : claimQueue now tbl = p :: rest) :
    ∀ r ∈ tbl, claimable now r = true → claimOrder p r := by
  intro r hr hc
  have hm : r ∈ claimQueue now tbl := claimQueue_mem.mpr ⟨hr, hc⟩
  have hs : (p :: rest).Sorted claimOrder := by
    rw [← h]
    exact List.sorted_insertionSort claimOrder _
  rw [h] at hm
  rcases List.mem_cons.mp hm with rfl | hm'
  · exact claimOrder_refl _
  · exact (List.sorted_cons.mp hs).1 r hm'

/-- What `ClaimJob` does when the claim query ranks `p` first. -/
theorem ClaimJob_of_head {now : Time} {tbl : JobTable} (workerID : String)
    (hid : (tbl.map (fun r => r.id)).Nodup) {p : JobRow} {rest : List JobRow}
    (h : claimQueue now tbl = p :: rest) :
    ∃ naa, p.next_attempt_after = some naa ∧ naa ≤ now ∧
      ClaimJob now workerID tbl =
        (tbl.map (fun r => if r.id = p.id then claimUpdate now workerID p else r),
         .ok (some { ID := p.id
                     Type_ := p.job_type
                     Status := "processing"
                     Priority := p.priority
                     Payload := p.payload
                     CreatedAt := p.created_at
                     StartedAt := some now
                     Attempts := p.attempts + 1
                     MaxAttempts := p.max_attempts
                     ErrorMessage := p.error_message.getD ""
                     NextAttemptAfter := naa })) := by
  have hp : p ∈ claimQueue now tbl := by rw [h]; exact List.mem_cons_self _ _
  obtain ⟨hpt, hpc⟩ := claimQueue_mem.mp hp
  obtain ⟨_, naa, hnaa, hle⟩ := (claimable_iff now p).mp hpc
  refine ⟨naa, hnaa, hle, ?_⟩
  unfold ClaimJob claimSelect
  rw [h]
  simp only [List.head?_cons, Option.map_some']
  rw [find_by_id hid hpt]
  have hs : scanJob (claimUpdate now workerID p) =
      .ok { ID := p.id
            Type_ := p.job_type
            Status := "processing"
            Priority := p.priority
            Payload := p.payload
            CreatedAt := p.created_at
            StartedAt := some now
            Attempts := p.attempts + 1
            MaxAttempts := p.max_attempts
            ErrorMessage := p.error_message.getD ""
            NextAttemptAfter := naa } := by
    simp [scanJob, claimUpdate, hnaa]
  simp only []
  rw [hs, map_update_by_id hid hpt]

theorem ClaimJob_of_nil {now : Time} {tbl : JobTable} (workerID : String)
    (h : claimQueue now tbl = []) : ClaimJob now workerID tbl = (tbl, .ok none) := by
  unfold ClaimJob claimSelect
  rw [h]
  rfl

/-! ### Claiming -/

/-- C1. `ClaimJob` as one atomic step on a table with a primary key: when some
job is pending with `next_attempt_after <= now`, a job `p` that is minimal in
(priority, created_at) among those is picked; exactly that row is rewritten to
`processing` with `started_at = now`, the worker id and `attempts + 1`; every
other row stays as it was; and the job returned is `p` with the incremented
attempts.  When no job is eligible the table is unchanged and the result is no
job and no error. -/
theorem ClaimJob_claims_first_pending (now : Time) (workerID : String) (tbl : JobTable)
    (hid : (tbl.map (fun r => r.id)).Nodup) :
    ((∃ r ∈ tbl, r.status = "pending" ∧ ∃ t, r.next_attempt_after = some t ∧ t ≤ now) →
      ∃ p ∈ tbl, ∃ naa, p.status = "pending" ∧ p.next_attempt_after = some naa ∧ naa ≤ now ∧
        (∀ r ∈ tbl, r.status = "pending" → (∃ t, r.next_attempt_after = some t ∧ t ≤ now) →
          p.priority < r.priority ∨ (p.priority = r.priority ∧ p.created_at ≤ r.created_at)) ∧
        ClaimJob now workerID tbl =
          (tbl.map (fun r =>
              if r.id = p.id then
                { p with
                  status := "processing"
                  started_at := some now
                  worker_id := some workerID
                  attempts := p.attempts + 1 }
              else r),
           .ok (some { ID := p.id
                       Type_ := p.job_type
                       Status := "processing"
                       Priority := p.priority
                       Payload := p.payload
                       CreatedAt := p.created_at
                       StartedAt := some now
                       Attempts := p.attempts + 1
                       MaxAttempts := p.max_attempts
                       ErrorMessage := p.error_message.getD ""
                       NextAttemptAfter := naa }))) ∧
    ((¬ ∃ r ∈ tbl, r.status = "pending" ∧ ∃ t, r.next_attempt_after = some t ∧ t ≤ now) →
      ClaimJob now workerID tbl = (tbl, .ok none)) := by
  constructor
  · rintro ⟨r, hr, hrs⟩
    have hrc : claimable now r = true := (claimable_iff now r).mpr hrs
    cases hq : claimQueue now tbl with
    | nil => exact absurd hrc (by simp [claimQueue_nil hq r hr])
    | cons p rest =>
      have hp : p ∈ claimQueue now tbl := by rw [hq]; exact List.mem_cons_self _ _
      obtain ⟨hpt, hpc⟩ := claimQueue_mem.mp hp
      obtain ⟨naa, hnaa, hle, hclaim⟩ := ClaimJob_of_head workerID hid hq
      refine ⟨p, hpt, naa, ((claimable_iff now p).mp hpc).1, hnaa, hle, ?_, hclaim⟩
      intro r' hr' hs' ht'
      exact claimQueue_head_le hq r' hr' ((claimable_iff now r').mpr ⟨hs', ht'⟩)
  · intro hnone
    cases hq : claimQueue now tbl with
    | nil => exact ClaimJob_of_nil workerID hq
    | cons p rest =>
      have hp : p ∈ claimQueue now tbl := by rw [hq]; exact List.mem_cons_self _ _
      obtain ⟨hpt, hpc⟩ := claimQueue_mem.mp hp
      exact absurd ⟨p, hpt, (claimable_iff now p).mp hpc⟩ hnone

theorem ClaimJob_claims_first_pending_witness :
    (sampleTable.map (fun r => r.id)).Nodup ∧
    (((∃ r ∈ sampleTable,
          r.status = "pending" ∧ ∃ t, r.next_attempt_after = some t ∧ t ≤ (10 : Time)) →
      ∃ p ∈ sampleTable, ∃ naa,
        p.status = "pending" ∧ p.next_attempt_after = some naa ∧ naa ≤ (10 : Time) ∧
        (∀ r ∈ sampleTable, r.status = "pending" →
          (∃ t, r.next_attempt_after = some t ∧ t ≤ (10 : Time)) →
          p.priority < r.priority ∨ (p.priority = r.priority ∧ p.created_at ≤ r.created_at)) ∧
        ClaimJob 10 "worker-1" sampleTable =
          (sampleTable.map (fun r =>
              if r.id = p.id then
                { p with
                  status := "processing"
                  started_at := some 10
                  worker_id := some "worker-1"
                  attempts := p.attempts + 1 }
              else r),
           .ok (some { ID := p.id
                       Type_ := p.job_type
                       Status := "processing"
                       Priority := p.priority
                       Payload := p.payload
                       CreatedAt := p.created_at
                       StartedAt := some 10
                       Attempts := p.attempts + 1
                       MaxAttempts := p.max_attempts
                       ErrorMessage := p.error_message.getD ""
                       NextAttemptAfter := naa }))) ∧
    ((¬ ∃ r ∈ sampleTable,
          r.status = "pending" ∧ ∃ t, r.next_attempt_after = some t ∧ t ≤ (10 : Time)) →
      ClaimJob 10 "worker-1" sampleTable = (sampleTable, .ok none))) :=
  ⟨by decide, ClaimJob_claims_first_pending 10 "worker-1" sampleTable (by decide)⟩

/-! ### Claim exclusivity -/

theorem claimQueue_ids_nodup {now : Time} {tbl : JobTable}
    (hid : (tbl.map (fun r => r.id)).Nodup) :
    ((claimQueue now tbl).map (fun r => r.id)).Nodup := by
  have hperm : List.Perm ((claimQueue now tbl).map (fun r => r.id))
      ((tbl.filter (claimable now)).map (fun r => r.id)) :=
    (List.perm_insertionSort claimOrder _).map _
  rw [hperm.nodup_iff]
  exact hid.sublist ((List.filter_sublist _).map _)

theorem filter_claimable_after_claim (s now : Time) (w : String) (pid : UUID) (tbl : JobTable) :
    (tbl.map (fun r => if r.id = pid then claimUpdate now w r else r)).filter (claimable s) =
      (tbl.filter (claimable s)).filter (fun r => decide (r.id ≠ pid)) := by
  induction tbl with
  | nil => rfl
  | cons a l ih =>
    by_cases ha : a.id = pid
    · by_cases hc : claimable s a = true
      · simp [ha, hc, claimUpdate_not_claimable, ih]
      · simp [ha, hc, claimUpdate_not_claimable, ih]
    · by_cases hc : claimable s a = true
      · simp [ha, hc, ih]
      · simp [ha, hc, ih]

theorem claimQueue_after_claim {s now : Time} (w : String) {tbl : JobTable}
    (hid : (tbl.map (fun r => r.id)).Nodup) {p : JobRow} {rest : List JobRow}
    (h : claimQueue s tbl = p :: rest) :
    claimQueue s (tbl.map (fun r => if r.id = p.id then claimUpdate now w r else r)) = rest := by
  have hnd := @claimQueue_ids_nodup s _ hid
  rw [h, List.map_cons, List.nodup_cons] at hnd
  unfold claimQueue at h ⊢
  rw [filter_claimable_after_claim, insertionSort_filter, h]
  rw [List.filter_cons_of_neg (by simp)]
  apply List.filter_eq_self.mpr
  intro r hr
  have : r.id ≠ p.id := fun e => hnd.1 (e ▸ List.mem_map_of_mem _ hr)
  simpa using this

theorem map_id_after_update (pid : UUID) (f : JobRow → JobRow)
    (hf : ∀ r, r.id = pid → (f r).id = pid) (tbl : JobTable) :
    (tbl.map (fun r => if r.id = pid then f r else r)).map (fun r => r.id) =
      tbl.map (fun r => r.id) := by
  rw [List.map_map]
  apply List.map_congr_left
  intro r _
  by_cases h : r.id = pid
  · simp [h, hf r h]
  · simp [h]

theorem claimQueue_congr {s now : Time} {tbl : JobTable}
    (h : ∀ r ∈ tbl, claimable s r = claimable now r) : claimQueue s tbl = claimQueue now tbl := by
  unfold claimQueue
  rw [List.filter_congr h]

theorem claimAll_returnedIDs (now : Time) (calls : List (String × Time)) :
    ∀ tbl : JobTable, (tbl.map (fun r => r.id)).Nodup →
      (∀ c ∈ calls, ∀ r ∈ tbl, claimable c.2 r = claimable now r) →
      returnedIDs (claimAll calls tbl).2 =
        ((claimQueue now tbl).map (fun r => r.id)).take calls.length := by
  induction calls with
  | nil => intro tbl _ _; simp [claimAll, returnedIDs]
  | cons c cs ih =>
    intro tbl hid hnow
    have hc : claimQueue c.2 tbl = claimQueue now tbl :=
      claimQueue_congr (hnow c (List.mem_cons_self _ _))
    have hcs : ∀ c' ∈ cs, ∀ r ∈ tbl, claimable c'.2 r = claimable now r :=
      fun c' hc' => hnow c' (List.mem_cons_of_mem _ hc')
    cases hq : claimQueue now tbl with
    | nil =>
      have hstep : ClaimJob c.2 c.1 tbl = (tbl, .ok none) :=
        ClaimJob_of_nil c.1 (hc.trans hq)
      have := ih tbl hid hcs
      rw [hq] at this
      simp only [claimAll, hstep, returnedIDs, List.filterMap_cons] at this ⊢
      simpa using this
    | cons p rest =>
      obtain ⟨naa, _, _, hstep⟩ := ClaimJob_of_head c.1 hid (hc.trans hq)
      rw [← map_update_by_id hid (claimQueue_mem.mp (by rw [hq]; exact List.mem_cons_self _ _)).1]
        at hstep
      have hid' : ((tbl.map (fun r => if r.id = p.id then claimUpdate c.2 c.1 r else r)).map
          (fun r => r.id)).Nodup := by
        rw [map_id_after_update p.id (claimUpdate c.2 c.1) (fun _ h => h)]
        exact hid
      have hnow' : ∀ c' ∈ cs,
          ∀ r ∈ tbl.map (fun r => if r.id = p.id then claimUpdate c.2 c.1 r else r),
            claimable c'.2 r = claimable now r := by
        intro c' hc' r hr
        obtain ⟨r0, hr0, rfl⟩ := List.mem_map.mp hr
        by_cases h0 : r0.id = p.id
        · simp [h0, claimUpdate_not_claimable]
        · simpa [h0] using hcs c' hc' r0 hr0
      have := ih _ hid' hnow'
      rw [claimQueue_after_claim c.1 hid hq] at this
      simp only [claimAll, hstep, returnedIDs, List.filterMap_cons, List.length_cons,
        List.map_cons, List.take_succ_cons] at this ⊢
      rw [this]

theorem claimAll_returned_pending (calls : List (String × Time)) :
    ∀ tbl : JobTable, (tbl.map (fun r => r.id)).Nodup →
      (returnedIDs (claimAll calls tbl).2).Nodup ∧
      (∀ res ∈ (claimAll calls tbl).2, ∃ o, res = .ok o) ∧
      ∀ id ∈ returnedIDs (claimAll calls tbl).2, ∃ r ∈ tbl, r.id = id ∧ r.status = "pending" := by
  induction calls with
  | nil => intro tbl _; simp [claimAll, returnedIDs]
  | cons c cs ih =>
    intro tbl hid
    cases hq : claimQueue c.2 tbl with
    | nil =>
      have hstep : ClaimJob c.2 c.1 tbl = (tbl, .ok none) := ClaimJob_of_nil c.1 hq
      obtain ⟨h1, h2, h3⟩ := ih tbl hid
      simp only [claimAll, hstep, returnedIDs, List.filterMap_cons] at h1 h2 h3 ⊢
      refine ⟨h1, ?_, h3⟩
      intro res hres
      rcases List.mem_cons.mp hres with rfl | hres
      · exact ⟨none, rfl⟩
      · exact h2 res hres
    | cons p rest =>
      obtain ⟨naa, _, _, hstep⟩ := ClaimJob_of_head c.1 hid hq
      have hp := claimQueue_mem.mp (show p ∈ claimQueue c.2 tbl by
        rw [hq]; exact List.mem_cons_self _ _)
      have hpend : p.status = "pending" := ((claimable_iff c.2 p).mp hp.2).1
      have hid' : ((tbl.map (fun r => if r.id = p.id then claimUpdate c.2 c.1 p else r)).map
          (fun r => r.id)).Nodup := by
        rw [map_id_after_update p.id (fun _ => claimUpdate c.2 c.1 p) (fun _ _ => rfl)]
        exact hid
      obtain ⟨h1, h2, h3⟩ := ih _ hid'
      have hback : ∀ r' ∈ tbl.map (fun r => if r.id = p.id then claimUpdate c.2 c.1 p else r),
          r'.status = "pending" → r' ∈ tbl ∧ r'.id ≠ p.id := by
        intro r' hr' hs
        obtain ⟨r0, hr0, rfl⟩ := List.mem_map.mp hr'
        by_cases h0 : r0.id = p.id
        · rw [if_pos h0] at hs
          exact absurd hs (by simp [claimUpdate])
        · rw [if_neg h0] at hs ⊢
          exact ⟨hr0, h0⟩
      simp only [claimAll, hstep, returnedIDs, List.filterMap_cons] at h1 h2 h3 ⊢
      refine ⟨List.nodup_cons.mpr ⟨?_, h1⟩, ?_, ?_⟩
      · intro hmem
        obtain ⟨r', hr', hrid, hrs⟩ := h3 p.id hmem
        exact (hback r' hr' hrs).2 hrid
      · intro res hres
        rcases List.mem_cons.mp hres with rfl | hres
        · exact ⟨_, rfl⟩
        · exact h2 res hres
      · intro id hmem
        rcases List.mem_cons.mp hmem with rfl | hmem
        · exact ⟨p, hp.1, rfl, hpend⟩
        · obtain ⟨r', hr', hrid, hrs⟩ := h3 id hmem
          exact ⟨r', (hback r' hr' hrs).1, hrid, hrs⟩

/-- C2, as stated, fails in its second half when the calls are made at
different times: eligibility depends on the time of the call.  In the sample
table job 1 is claimable at time 10 and job 2, which ranks first, only from
time 11 on.  Calls at times 10 and 12 return jobs 1 and 2 in that order, which
is a prefix neither of the eligible jobs in priority order at time 10 (job 1
alone) nor of those at time 12 (job 2, then job 1). -/
theorem claims_at_different_times_not_a_prefix :
    returnedIDs (claimAll [("worker-1", 10), ("worker-2", 12)] sampleBackoffTable).2 = [1, 2] ∧
    (claimQueue 10 sampleBackoffTable).map (fun r => r.id) = [1] ∧
    (claimQueue 12 sampleBackoffTable).map (fun r => r.id) = [2, 1] ∧
    ¬ (returnedIDs (claimAll [("worker-1", 10), ("worker-2", 12)] sampleBackoffTable).2 <+:
      (claimQueue 10 sampleBackoffTable).map (fun r => r.id)) ∧
    ¬ (returnedIDs (claimAll [("worker-1", 10), ("worker-2", 12)] sampleBackoffTable).2 <+:
      (claimQueue 12 sampleBackoffTable).map (fun r => r.id)) := by
  decide

/-- C2 (P1, claim exclusivity), amended.  A run of `ClaimJob` calls on a table
with a primary key, by any workers at any times, taken as atomic steps in any
order with nothing in between: no call fails, no job id is handed out twice,
and every job handed out was pending at the start.  When moreover every call
time sees the same jobs as eligible as `now` does (as for calls made at one
instant), the ids handed out, in call order, are the first `calls.length`
entries of the eligible jobs sorted by (priority, created_at), hence a prefix
of that order. -/
theorem claimAll_exclusive_prefix (calls : List (String × Time)) (tbl : JobTable)
    (hid : (tbl.map (fun r => r.id)).Nodup) :
    (returnedIDs (claimAll calls tbl).2).Nodup ∧
    (∀ res ∈ (claimAll calls tbl).2, ∃ o, res = .ok o) ∧
    (∀ id ∈ returnedIDs (claimAll calls tbl).2, ∃ r ∈ tbl, r.id = id ∧ r.status = "pending") ∧
    (∀ now : Time, (∀ c ∈ calls, ∀ r ∈ tbl, claimable c.2 r = claimable now r) →
      returnedIDs (claimAll calls tbl).2 =
        ((claimQueue now tbl).map (fun r => r.id)).take calls.length ∧
      returnedIDs (claimAll calls tbl).2 <+: (claimQueue now tbl).map (fun r => r.id) ∧
      (claimQueue now tbl).Sorted claimOrder ∧
      (∀ r, r ∈ claimQueue now tbl ↔ r ∈ tbl ∧ claimable now r = true)) := by
  obtain ⟨h1, h2, h3⟩ := claimAll_returned_pending calls tbl hid
  refine ⟨h1, h2, h3, ?_⟩
  intro now hnow
  have h := claimAll_returnedIDs now calls tbl hid hnow
  refine ⟨h, ?_, List.sorted_insertionSort claimOrder _, fun r => claimQueue_mem⟩
  rw [h]
  exact List.take_prefix _ _

theorem claimAll_exclusive_prefix_witness :
    (sampleTable.map (fun r => r.id)).Nodup ∧
    (∀ c ∈ [("worker-1", (10 : Time)), ("worker-2", 11), ("worker-1", 12), ("worker-3", 12)],
      ∀ r ∈ sampleTable, claimable c.2 r = claimable 10 r) ∧
    returnedIDs (claimAll [("worker-1", (10 : Time)), ("worker-2", 11), ("worker-1", 12),
        ("worker-3", 12)] sampleTable).2 = [2, 3, 1] ∧
    ((returnedIDs (claimAll [("worker-1", (10 : Time)), ("worker-2", 11), ("worker-1", 12),
        ("worker-3", 12)] sampleTable).2).Nodup ∧
    (∀ res ∈ (claimAll [("worker-1", (10 : Time)), ("worker-2", 11), ("worker-1", 12),
        ("worker-3", 12)] sampleTable).2, ∃ o, res = .ok o) ∧
    (∀ id ∈ returnedIDs (claimAll [("worker-1", (10 : Time)), ("worker-2", 11),
        ("worker-1", 12), ("worker-3", 12)] sampleTable).2,
      ∃ r ∈ sampleTable, r.id = id ∧ r.status = "pending") ∧
    (∀ now : Time,
      (∀ c ∈ [("worker-1", (10 : Time)), ("worker-2", 11), ("worker-1", 12), ("worker-3", 12)],
        ∀ r ∈ sampleTable, claimable c.2 r = claimable now r) →
      returnedIDs (claimAll [("worker-1", (10 : Time)), ("worker-2", 11), ("worker-1", 12),
          ("worker-3", 12)] sampleTable).2 =
        ((claimQueue now sampleTable).map (fun r => r.id)).take
          [("worker-1", (10 : Time)), ("worker-2", 11), ("worker-1", 12),
            ("worker-3", 12)].length ∧
      returnedIDs (claimAll [("worker-1", (10 : Time)), ("worker-2", 11), ("worker-1", 12),
          ("worker-3", 12)] sampleTable).2 <+: (claimQueue now sampleTable).map (fun r => r.id) ∧
      (claimQueue now sampleTable).Sorted claimOrder ∧
      (∀ r, r ∈ claimQueue now sampleTable ↔ r ∈ sampleTable ∧ claimable now r = true))) :=
  ⟨by decide, by decide, by decide,
    claimAll_exclusive_prefix _ sampleTable (by decide)⟩

/-! ### Failing a job -/

/-- C3. `FailJob(jobId, msg)` on an existing job `j` at time `now`, in a table
with a primary key: with `attempts >= max_attempts` the job becomes `failed`
with `next_attempt_after` NULL, otherwise `pending` with
`next_attempt_after = now + 2^attempts` minutes; `error_message` becomes `msg`
in both cases; every other column of `j`, `attempts` among them, and every
other row stay as they were. -/
theorem FailJob_backoff_or_terminal (now : Time) (msg : String) (tbl : JobTable)
    (hid : (tbl.map (fun r => r.id)).Nodup) (j : JobRow) (hj : j ∈ tbl) :
    (j.max_attempts ≤ (j.attempts : Int) →
      FailJob now j.id msg tbl =
        tbl.map (fun r =>
          if r.id = j.id then
            { j with status := "failed", error_message := some msg, next_attempt_after := none }
          else r)) ∧
    ((j.attempts : Int) < j.max_attempts →
      FailJob now j.id msg tbl =
        tbl.map (fun r =>
          if r.id = j.id then
            { j with
              status := "pending"
              error_message := some msg
              next_attempt_after := some (now + 2 ^ j.attempts * minute) }
          else r)) := by
  unfold FailJob
  rw [map_update_by_id hid hj]
  constructor
  · intro h
    have h' : (j.attempts : Int) ≥ j.max_attempts := h
    simp only [failUpdate, if_pos h']
  · intro h
    have h' : ¬ (j.attempts : Int) ≥ j.max_attempts := not_le.mpr h
    simp only [failUpdate, if_neg h']

theorem FailJob_backoff_or_terminal_witness :
    (sampleTable.map (fun r => r.id)).Nodup ∧ sampleRow 2 1 9 ∈ sampleTable ∧
    (((sampleRow 2 1 9).max_attempts ≤ ((sampleRow 2 1 9).attempts : Int) →
      FailJob 100 (sampleRow 2 1 9).id "boom" sampleTable =
        sampleTable.map (fun r =>
          if r.id = (sampleRow 2 1 9).id then
            { sampleRow 2 1 9 with
              status := "failed", error_message := some "boom", next_attempt_after := none }
          else r)) ∧
    (((sampleRow 2 1 9).attempts : Int) < (sampleRow 2 1 9).max_attempts →
      FailJob 100 (sampleRow 2 1 9).id "boom" sampleTable =
        sampleTable.map (fun r =>
          if r.id = (sampleRow 2 1 9).id then
            { sampleRow 2 1 9 with
              status := "pending"
              error_message := some "boom"
              next_attempt_after := some (100 + 2 ^ (sampleRow 2 1 9).attempts * minute) }
          else r))) :=
  ⟨by decide, by simp [sampleTable],
    FailJob_backoff_or_terminal 100 "boom" sampleTable (by decide) (sampleRow 2 1 9)
      (by simp [sampleTable])⟩

/-! ### Bounded retries -/

theorem failedRounds_cons {tbl : JobTable} (hid : (tbl.map (fun r => r.id)).Nodup)
    {j : JobRow} (hj : j ∈ tbl) (rd : FailedRound) (rest : List FailedRound) (tbl' : JobTable)
    (h : failedRounds j.id (rd :: rest) tbl = some tbl') :
    claimable rd.claimAt j = true ∧
      failedRounds j.id rest
        (tbl.map (fun r =>
          if r.id = j.id then
            failUpdate rd.failAt rd.errorMsg (claimUpdate rd.claimAt rd.workerID j)
          else r)) = some tbl' := by
  unfold failedRounds at h
  cases hq : claimQueue rd.claimAt tbl with
  | nil =>
    rw [ClaimJob_of_nil rd.workerID hq] at h
    simp at h
  | cons p ps =>
    obtain ⟨naa, _, _, hclaim⟩ := ClaimJob_of_head rd.workerID hid hq
    have hp := claimQueue_mem.mp (show p ∈ claimQueue rd.claimAt tbl by
      rw [hq]; exact List.mem_cons_self _ _)
    rw [hclaim] at h
    simp only [] at h
    by_cases hpj : p.id = j.id
    · have hpe : p = j := eq_of_id_eq hid hp.1 hj hpj
      subst hpe
      rw [if_pos rfl] at h
      refine ⟨hp.2, ?_⟩
      rw [← h]
      congr 1
      unfold FailJob
      rw [List.map_map]
      apply List.map_congr_left
      intro r _
      by_cases hr : r.id = p.id
      · simp [hr, claimUpdate]
      · simp [hr]
    · rw [if_neg hpj] at h
      cases h

theorem mem_map_update {tbl : JobTable} {j : JobRow} (hj : j ∈ tbl) (j' : JobRow) :
    j' ∈ tbl.map (fun r => if r.id = j.id then j' else r) :=
  List.mem_map.mpr ⟨j, hj, by simp⟩

theorem failedRounds_state (last : FailedRound) (rds : List FailedRound) :
    ∀ (tbl : JobTable) (j : JobRow), (tbl.map (fun r => r.id)).Nodup → j ∈ tbl →
      (j.attempts : Int) < j.max_attempts →
      ∀ tbl', failedRounds j.id (rds ++ [last]) tbl = some tbl' →
        ((j.attempts + rds.length + 1 : Nat) : Int) ≤ j.max_attempts ∧
        ∃ j' ∈ tbl', j'.id = j.id ∧ j'.max_attempts = j.max_attempts ∧
          j'.attempts = j.attempts + rds.length + 1 ∧
          j'.error_message = some last.errorMsg ∧
          ((j'.attempts : Int) < j.max_attempts →
            j'.status = "pending" ∧
            j'.next_attempt_after = some (last.failAt + 2 ^ j'.attempts * minute)) ∧
          (j.max_attempts ≤ (j'.attempts : Int) →
            j'.status = "failed" ∧ j'.next_attempt_after = none) := by
  induction rds with
  | nil =>
    intro tbl j hid hj hlt tbl' h
    obtain ⟨_, h2⟩ := failedRounds_cons hid hj last [] tbl' h
    simp only [failedRounds, Option.some.injEq] at h2
    subst h2
    refine ⟨by simp only [List.length_nil]; omega, _, mem_map_update hj _, rfl, rfl, rfl, rfl, ?_, ?_⟩
    · intro hlt'
      have hn : ¬ (((claimUpdate last.claimAt last.workerID j).attempts : Nat) : Int) ≥
          (claimUpdate last.claimAt last.workerID j).max_attempts := not_le.mpr hlt'
      simp only [failUpdate, if_neg hn]
      trivial
    · intro hge
      have hn : (((claimUpdate last.claimAt last.workerID j).attempts : Nat) : Int) ≥
          (claimUpdate last.claimAt last.workerID j).max_attempts := hge
      simp only [failUpdate, if_pos hn]
      trivial
  | cons rd rds ih =>
    intro tbl j hid hj hlt tbl' h
    obtain ⟨_, h2⟩ := failedRounds_cons hid hj rd (rds ++ [last]) tbl' h
    generalize hj1 : failUpdate rd.failAt rd.errorMsg (claimUpdate rd.claimAt rd.workerID j) = j1
      at h2
    have hj1id : j1.id = j.id := by rw [← hj1]; rfl
    have hj1max : j1.max_attempts = j.max_attempts := by rw [← hj1]; rfl
    have hj1att : j1.attempts = j.attempts + 1 := by rw [← hj1]; rfl
    have hmem : j1 ∈ tbl.map (fun r => if r.id = j.id then j1 else r) := mem_map_update hj j1
    have hid1 : ((tbl.map (fun r => if r.id = j.id then j1 else r)).map (fun r => r.id)).Nodup := by
      rw [map_id_after_update j.id (fun _ => j1) (fun _ _ => hj1id)]
      exact hid
    rw [← hj1id] at h2 hmem hid1
    have hnext : claimable (match rds ++ [last] with
        | [] => last.claimAt
        | rd' :: _ => rd'.claimAt) j1 = true := by
      cases hr : rds ++ [last] with
      | nil => simp at hr
      | cons rd' rest' =>
        rw [hr] at h2
        exact (failedRounds_cons hid1 hmem rd' rest' tbl' h2).1
    have hpend : j1.status = "pending" := ((claimable_iff _ j1).mp hnext).1
    have hlt1 : (j1.attempts : Int) < j1.max_attempts := by
      by_contra hge
      have hge' : ((claimUpdate rd.claimAt rd.workerID j).attempts : Int) ≥
          (claimUpdate rd.claimAt rd.workerID j).max_attempts := by
        have := not_lt.mp hge
        rw [hj1att, hj1max] at this
        exact this
      rw [← hj1] at hpend
      simp only [failUpdate, if_pos hge'] at hpend
      exact absurd hpend (by decide)
    obtain ⟨hb, j', hj', e1, e2, e3, e4, e5, e6⟩ := ih _ j1 hid1 hmem hlt1 tbl' h2
    refine ⟨?_, j', hj', e1.trans hj1id, e2.trans hj1max, ?_, e4, ?_, ?_⟩
    · rw [hj1att, hj1max] at hb
      simp only [List.length_cons]
      have : j.attempts + (rds.length + 1) + 1 = j.attempts + 1 + rds.length + 1 := by omega
      rw [this]
      exact hb
    · rw [e3, hj1att, List.length_cons]
      omega
    · rw [← hj1max]
      exact e5
    · rw [← hj1max]
      exact e6

/-- C4. Bounded retries with exponential backoff.  A job of a table with a
primary key that is freshly enqueued (`attempts = 0`; it is `pending`, or the
first pass could not claim it) with `max_attempts = m >= 1` goes through
`k = rds.length + 1` passes that each claim it and then fail it.  Then
`k <= m`, the job has `attempts = k` and carries the last error text; while
`k < m` it is `pending` with `next_attempt_after` exactly `2^k` minutes after
the time of the k-th failure, and at `k = m`, not earlier, it is `failed` with
`next_attempt_after` NULL. -/
theorem bounded_retries_backoff (tbl : JobTable) (hid : (tbl.map (fun r => r.id)).Nodup)
    (j : JobRow) (hj : j ∈ tbl) (hfresh : j.attempts = 0)
    (m : Nat) (hm : j.max_attempts = (m : Int)) (hm1 : 1 ≤ m)
    (rds : List FailedRound) (last : FailedRound) (tbl' : JobTable)
    (hrun : failedRounds j.id (rds ++ [last]) tbl = some tbl') :
    rds.length + 1 ≤ m ∧
    ∃ j' ∈ tbl', j'.id = j.id ∧ j'.attempts = rds.length + 1 ∧
      j'.error_message = some last.errorMsg ∧
      (rds.length + 1 < m →
        j'.status = "pending" ∧
        j'.next_attempt_after = some (last.failAt + 2 ^ (rds.length + 1) * minute)) ∧
      (rds.length + 1 = m → j'.status = "failed" ∧ j'.next_attempt_after = none) := by
  have hlt : (j.attempts : Int) < j.max_attempts := by
    rw [hfresh, hm]
    exact_mod_cast hm1
  obtain ⟨hb, j', hj', e1, _, e3, e4, e5, e6⟩ :=
    failedRounds_state last rds tbl j hid hj hlt tbl' hrun
  rw [hfresh, Nat.zero_add] at e3 hb
  rw [hm] at hb e5 e6
  rw [e3] at e5 e6
  refine ⟨by exact_mod_cast hb, j', hj', e1, e3, e4, ?_, ?_⟩
  · intro h
    exact e5 (by exact_mod_cast h)
  · intro h
    exact e6 (by exact_mod_cast h.ge)

theorem bounded_retries_backoff_witness :
    (sampleTable.map (fun r => r.id)).Nodup ∧ sampleRow 2 1 9 ∈ sampleTable ∧
    (sampleRow 2 1 9).attempts = 0 ∧ (sampleRow 2 1 9).max_attempts = ((3 : Nat) : Int) ∧
    1 ≤ 3 ∧
    failedRounds (sampleRow 2 1 9).id (sampleRounds ++ [sampleLastRound]) sampleTable =
      some ((failedRounds 2 (sampleRounds ++ [sampleLastRound]) sampleTable).getD []) ∧
    (sampleRounds.length + 1 ≤ 3 ∧
    ∃ j' ∈ (failedRounds 2 (sampleRounds ++ [sampleLastRound]) sampleTable).getD [],
      j'.id = (sampleRow 2 1 9).id ∧ j'.attempts = sampleRounds.length + 1 ∧
      j'.error_message = some sampleLastRound.errorMsg ∧
      (sampleRounds.length + 1 < 3 →
        j'.status = "pending" ∧
        j'.next_attempt_after =
          some (sampleLastRound.failAt + 2 ^ (sampleRounds.length + 1) * minute)) ∧
      (sampleRounds.length + 1 = 3 → j'.status = "failed" ∧ j'.next_attempt_after = none)) :=
  ⟨by decide, by simp [sampleTable], rfl, rfl, by decide, rfl,
    bounded_retries_backoff sampleTable (by decide) (sampleRow 2 1 9) (by simp [sampleTable]) rfl
      3 rfl (by decide) sampleRounds sampleLastRound _ rfl⟩

/-! ### Terminal statuses -/

/-- C5, as stated, fails: `CompleteJob` and `FailJob` carry no status check.
`CompleteJob` on the id of a `failed` job makes it `completed`, and `FailJob`
on the id of a `completed` job with attempts left makes it `pending` again. -/
theorem terminal_status_overwritten :
    terminal sampleFailedRow ∧
    (CompleteJob 60 sampleFailedRow.id [sampleFailedRow]).map (fun r => r.status) =
      ["completed"] ∧
    terminal sampleCompletedRow ∧
    (FailJob 60 sampleCompletedRow.id "late error" [sampleCompletedRow]).map (fun r => r.status) =
      ["pending"] := by
  refine ⟨Or.inr rfl, by decide, Or.inl rfl, by decide⟩

theorem getElem?_map_update {tbl : JobTable} {i : Nat} {r : JobRow} (hi : tbl[i]? = some r)
    (pid : UUID) (f : JobRow → JobRow) (hne : r.id ≠ pid) :
    (tbl.map (fun x => if x.id = pid then f x else x))[i]? = some r := by
  rw [List.getElem?_map, hi]
  simp [hne]

/-- C5, amended.  In a table with a primary key, a job `r` that is `completed`
or `failed` is left untouched, status included, by every `ClaimJob`, and by
every `CompleteJob` and `FailJob` addressed to another job id.  Addressed to
its own id, `CompleteJob` sets the status `completed` (so a completed job
stays completed) and `FailJob` sets `failed` when `attempts >= max_attempts`
(so such a failed job stays failed) and `pending` otherwise. -/
theorem terminal_status_stable (tbl : JobTable) (hid : (tbl.map (fun r => r.id)).Nodup)
    (i : Nat) (r : JobRow) (hi : tbl[i]? = some r) (ht : terminal r)
    (now : Time) (workerID msg : String) :
    (ClaimJob now workerID tbl).1[i]? = some r ∧
    (∀ jobID, jobID ≠ r.id →
      (CompleteJob now jobID tbl)[i]? = some r ∧ (FailJob now jobID msg tbl)[i]? = some r) ∧
    ((CompleteJob now r.id tbl)[i]?.map (fun x => x.status) = some "completed") ∧
    ((FailJob now r.id msg tbl)[i]?.map (fun x => x.status) =
      some (if r.max_attempts ≤ (r.attempts : Int) then "failed" else "pending")) := by
  refine ⟨?_, ?_, ?_, ?_⟩
  · cases hq : claimQueue now tbl with
    | nil => rw [ClaimJob_of_nil workerID hq]; exact hi
    | cons p rest =>
      obtain ⟨naa, _, _, hclaim⟩ := ClaimJob_of_head workerID hid hq
      have hp := claimQueue_mem.mp (show p ∈ claimQueue now tbl by
        rw [hq]; exact List.mem_cons_self _ _)
      rw [hclaim]
      have hne : r.id ≠ p.id := by
        intro e
        have hr : r ∈ tbl := List.getElem?_mem hi
        have : r = p := eq_of_id_eq hid hr hp.1 e
        have hpend := ((claimable_iff now p).mp hp.2).1
        rw [← this] at hpend
        rcases ht with h | h <;> rw [hpend] at h <;> exact absurd h (by decide)
      exact getElem?_map_update hi p.id (fun _ => claimUpdate now workerID p) hne
  · intro jobID hne
    exact ⟨getElem?_map_update hi jobID _ (Ne.symm hne),
      getElem?_map_update hi jobID _ (Ne.symm hne)⟩
  · unfold CompleteJob
    rw [List.getElem?_map, hi]
    simp
  · unfold FailJob
    rw [List.getElem?_map, hi]
    simp [failUpdate]

theorem terminal_status_stable_witness :
    ((sampleFailedRow :: sampleTable).map (fun r => r.id)).Nodup ∧
    (sampleFailedRow :: sampleTable)[0]? = some sampleFailedRow ∧
    terminal sampleFailedRow ∧
    ((ClaimJob 10 "worker-1" (sampleFailedRow :: sampleTable)).1[0]? = some sampleFailedRow ∧
    (∀ jobID, jobID ≠ sampleFailedRow.id →
      (CompleteJob 10 jobID (sampleFailedRow :: sampleTable))[0]? = some sampleFailedRow ∧
      (FailJob 10 jobID "boom" (sampleFailedRow :: sampleTable))[0]? = some sampleFailedRow) ∧
    ((CompleteJob 10 sampleFailedRow.id (sampleFailedRow :: sampleTable))[0]?.map
      (fun x => x.status) = some "completed") ∧
    ((FailJob 10 sampleFailedRow.id "boom" (sampleFailedRow :: sampleTable))[0]?.map
      (fun x => x.status) =
      some (if sampleFailedRow.max_attempts ≤ (sampleFailedRow.attempts : Int) then "failed"
        else "pending"))) :=
  ⟨by decide, rfl, Or.inr rfl,
    terminal_status_stable (sampleFailedRow :: sampleTable) (by decide) 0 sampleFailedRow rfl
      (Or.inr rfl) 10 "worker-1" "boom"⟩

/-! ### The discovery loop -/

theorem String_get_zero_cons (c : Char) (cs : List Char) : (String.mk (c :: cs)).get 0 = c := rfl

theorem changeID_eq_publicPackageID (v : Value) : changeID v = publicPackageID v := by
  cases v with
  | obj change =>
    have hid : (match asString (Obj.get change "id") with
        | none => none
        | some id => if id.length = 0 then none else if id.get 0 = '_' then none else some id) =
        (match Obj.get change "id" with
        | some (Value.str id) =>
          match id.data with
          | [] => none
          | c :: _ => if c = '_' then none else some id
        | _ => none) := by
      cases hi : Obj.get change "id" with
      | none => rfl
      | some w =>
        cases w with
        | str id =>
          simp only [asString]
          cases id with
          | mk data =>
            cases data with
            | nil => rfl
            | cons c cs =>
              simp only [String.length, List.length_cons, Nat.succ_ne_zero, if_false,
                String_get_zero_cons]
        | _ => rfl
    simp only [changeID, publicPackageID, asObj]
    cases hd : Obj.get change "deleted" with
    | none => simpa [asBool] using hid
    | some d =>
      cases d with
      | bool b =>
        cases b with
        | true => simp [asBool]
        | false => simpa [asBool] using hid
      | _ => simpa [asBool] using hid
  | _ => rfl

theorem enqueueChanges_eq (env : BatchEnv) (results : List Value) :
    ∀ (i : Nat) (s : Discovery),
      enqueueChanges env results i s =
        { s with
          queue := s.queue ++ enqueuedRows env results i
          totalProcessed := s.totalProcessed + (enqueuedRows env results i).length } := by
  induction results with
  | nil => intro i s; simp [enqueueChanges, enqueuedRows]
  | cons r rs ih =>
    intro i s
    rw [enqueueChanges, enqueuedRows, changeID_eq_publicPackageID]
    cases hp : publicPackageID r with
    | none => simp only [ih]
    | some id =>
      cases hins : env.Insert i with
      | error e => simp only [EnqueueJob, ih]
      | ok v =>
        obtain ⟨uid, now⟩ := v
        simp only [EnqueueJob, ih, changeJob, List.append_assoc, List.singleton_append,
          List.length_cons]
        congr 1
        push_cast
        ring

theorem processBatch_of_results {config : Config} {env : BatchEnv} {s : Discovery}
    {changes : Obj} {results : List Value}
    (hget : GetChanges env.net s.lastSequence config.BatchSize = .ok changes)
    (hres : asArr (changes.get "results") = some results) (hne : results ≠ []) :
    processBatch config env s =
      (if newLastSeq changes ≠ "" ∧ newLastSeq changes ≠ s.lastSequence then
        { lastSequence := newLastSeq changes
          totalProcessed := s.totalProcessed + (enqueuedRows env results 0).length
          queue := s.queue ++ enqueuedRows env results 0
          progress :=
            (UpdateScrapeProgress env.Upsert "npm_changes" (newLastSeq changes)
              (s.totalProcessed + (enqueuedRows env results 0).length) s.progress).1 }
      else
        { s with
          queue := s.queue ++ enqueuedRows env results 0
          totalProcessed := s.totalProcessed + (enqueuedRows env results 0).length },
      none) := by
  have hlen : ¬ results.length = 0 := fun h => hne (List.length_eq_zero.mp h)
  unfold processBatch
  rw [hget]
  simp only [hres, if_neg hlen, enqueueChanges_eq]
  split <;> rfl

/-- C6, as stated, fails: a failed `EnqueueJob` is logged and the loop goes on.
In the sample batch the entries `left-pad` and `lodash` are not skipped and
both INSERTs fail, yet `processBatch` returns no error with nothing enqueued
and both copies of the checkpoint advanced from `0` to `42`. -/
theorem checkpoint_advanced_despite_failed_enqueue :
    GetChanges sampleEnvInsertFails.net sampleDiscovery.lastSequence 1000 = .ok sampleChanges ∧
    asArr (sampleChanges.get "results") = some sampleResults ∧
    sampleResults.filterMap publicPackageID = ["left-pad", "lodash"] ∧
    sampleEnvInsertFails.Insert 1 = .error "connection reset" ∧
    sampleEnvInsertFails.Insert 3 = .error "connection reset" ∧
    (processBatch { BatchSize := 1000 } sampleEnvInsertFails sampleDiscovery).2 = none ∧
    (processBatch { BatchSize := 1000 } sampleEnvInsertFails sampleDiscovery).1.queue.length = 0 ∧
    sampleDiscovery.lastSequence = "0" ∧
    (processBatch { BatchSize := 1000 } sampleEnvInsertFails sampleDiscovery).1.lastSequence = "42" ∧
    sampleDiscovery.progress = [] ∧
    (processBatch { BatchSize := 1000 } sampleEnvInsertFails sampleDiscovery).1.progress =
      [{ id := "npm_changes", last_sequence := "42", total_processed := 0, last_updated := 3000 }] := by
  refine ⟨rfl, rfl, by decide, rfl, rfl, by decide, by decide, rfl, by decide, rfl, by decide⟩

/-- C6, amended.  `processBatch` advances the checkpoint only at the end of a
batch, after the loop has passed every entry that is not skipped to
`EnqueueJob`.  When it returns an error (the fetch failed or `results` is not
an array) nothing at all is changed.  When either copy of the checkpoint is
changed, the call returned no error, the batch was non-empty, the in-memory
token is the normalised `last_seq`, the rows of the entries whose `EnqueueJob`
succeeded are already in the queue, and `totalProcessed` has grown by their
number.  A failed `EnqueueJob` only drops its own entry: it neither stops the
loop nor holds back the checkpoint. -/
theorem processBatch_checkpoint_after_loop (config : Config) (env : BatchEnv) (s : Discovery) :
    ((processBatch config env s).2 ≠ none → (processBatch config env s).1 = s) ∧
    (((processBatch config env s).1.lastSequence ≠ s.lastSequence ∨
        (processBatch config env s).1.progress ≠ s.progress) →
      (processBatch config env s).2 = none ∧
      ∃ changes results,
        GetChanges env.net s.lastSequence config.BatchSize = .ok changes ∧
        asArr (changes.get "results") = some results ∧ results ≠ [] ∧
        (processBatch config env s).1.lastSequence = newLastSeq changes ∧
        (processBatch config env s).1.queue = s.queue ++ enqueuedRows env results 0 ∧
        (processBatch config env s).1.totalProcessed =
          s.totalProcessed + (enqueuedRows env results 0).length ∧
        (processBatch config env s).1.progress =
          (UpdateScrapeProgress env.Upsert "npm_changes" (newLastSeq changes)
            (s.totalProcessed + (enqueuedRows env results 0).length) s.progress).1) := by
  cases hget : GetChanges env.net s.lastSequence config.BatchSize with
  | error e =>
    have h : processBatch config env s = (s, some ("failed to fetch changes: " ++ e)) := by
      unfold processBatch; rw [hget]
    rw [h]
    exact ⟨fun _ => rfl, fun hc => by rcases hc with hc | hc <;> exact absurd rfl hc⟩
  | ok changes =>
    cases hres : asArr (changes.get "results") with
    | none =>
      have h : processBatch config env s =
          (s, some "unexpected response format: results not found or not an array") := by
        unfold processBatch; rw [hget]; simp only [hres]
      rw [h]
      exact ⟨fun _ => rfl, fun hc => by rcases hc with hc | hc <;> exact absurd rfl hc⟩
    | some results =>
      by_cases hne : results = []
      · have h : processBatch config env s = (s, none) := by
          unfold processBatch; rw [hget]; simp only [hres, hne, List.length_nil, if_true]
        rw [h]
        exact ⟨fun _ => rfl, fun hc => by rcases hc with hc | hc <;> exact absurd rfl hc⟩
      · rw [processBatch_of_results hget hres hne]
        refine ⟨fun hc => absurd rfl hc, fun hc => ⟨rfl, changes, results, rfl, hres, hne, ?_⟩⟩
        by_cases hseq : newLastSeq changes ≠ "" ∧ newLastSeq changes ≠ s.lastSequence
        · simp only [if_pos hseq, and_self]
        · rw [if_neg hseq] at hc
          rcases hc with hc | hc <;> exact absurd rfl hc

theorem enqueuedRows_all_inserted (env : BatchEnv) (results : List Value) :
    ∀ i : Nat, (∀ k, k < results.length → ∃ uid now, env.Insert (i + k) = .ok (uid, now)) →
      (enqueuedRows env results i).map (fun r =>
          (r.job_type, r.status, r.priority, r.max_attempts,
            asString (r.payload.get "package_name"))) =
        (results.filterMap publicPackageID).map (fun id =>
          ("fetch_package", "pending", 5, 3, some id)) := by
  induction results with
  | nil => intro i _; rfl
  | cons r rs ih =>
    intro i h
    have hrest : ∀ k, k < rs.length → ∃ uid now, env.Insert (i + 1 + k) = .ok (uid, now) := by
      intro k hk
      have := h (k + 1) (by simpa using hk)
      rwa [show i + (k + 1) = i + 1 + k by omega] at this
    obtain ⟨uid, now, h0⟩ := h 0 (by simp)
    rw [Nat.add_zero] at h0
    rw [enqueuedRows]
    cases hp : publicPackageID r with
    | none =>
      simp only [List.filterMap_cons, hp]
      exact ih (i + 1) hrest
    | some id =>
      simp only [h0, List.filterMap_cons, hp, List.map_cons, ih (i + 1) hrest]
      rfl

/-- C7. Batch filtering in `processBatch`.  For a fetched batch with a
non-empty `results` array in which every `EnqueueJob` succeeds, the call
returns no error and the rows appended to the queue are, in feed order, one
per entry that is an object whose `deleted` is not `true` and whose `id` is a
non-empty string not beginning with `_`; each is a pending `fetch_package`
job with priority 5, max attempts 3 and payload `package_name` equal to that
id; and `totalProcessed` grows by exactly their number. -/
theorem processBatch_enqueues_public_ids (config : Config) (env : BatchEnv) (s : Discovery)
    (changes : Obj) (results : List Value)
    (hget : GetChanges env.net s.lastSequence config.BatchSize = .ok changes)
    (hres : asArr (changes.get "results") = some results) (hne : results ≠ [])
    (hins : ∀ i, i < results.length → ∃ uid now, env.Insert i = .ok (uid, now)) :
    (processBatch config env s).2 = none ∧
    ∃ rows, (processBatch config env s).1.queue = s.queue ++ rows ∧
      rows.map (fun r =>
          (r.job_type, r.status, r.priority, r.max_attempts,
            asString (r.payload.get "package_name"))) =
        (results.filterMap publicPackageID).map (fun id =>
          ("fetch_package", "pending", 5, 3, some id)) ∧
      (processBatch config env s).1.totalProcessed =
        s.totalProcessed + (results.filterMap publicPackageID).length := by
  have hrows := enqueuedRows_all_inserted env results 0 (fun k hk => by
    rw [Nat.zero_add]; exact hins k hk)
  have hlen : (enqueuedRows env results 0).length = (results.filterMap publicPackageID).length := by
    have := congrArg List.length hrows
    simpa using this
  rw [processBatch_of_results hget hres hne]
  refine ⟨rfl, enqueuedRows env results 0, ?_, hrows, ?_⟩
  · split <;> rfl
  · rw [← hlen]
    split <;> rfl

theorem processBatch_enqueues_public_ids_witness :
    GetChanges sampleEnv.net sampleDiscovery.lastSequence ({ } : Config).BatchSize =
      .ok sampleChanges ∧
    asArr (sampleChanges.get "results") = some sampleResults ∧ sampleResults ≠ [] ∧
    (∀ i, i < sampleResults.length → ∃ uid now, sampleEnv.Insert i = .ok (uid, now)) ∧
    ((processBatch { } sampleEnv sampleDiscovery).2 = none ∧
    ∃ rows, (processBatch { } sampleEnv sampleDiscovery).1.queue = sampleDiscovery.queue ++ rows ∧
      rows.map (fun r =>
          (r.job_type, r.status, r.priority, r.max_attempts,
            asString (r.payload.get "package_name"))) =
        (sampleResults.filterMap publicPackageID).map (fun id =>
          ("fetch_package", "pending", 5, 3, some id)) ∧
      (processBatch { } sampleEnv sampleDiscovery).1.totalProcessed =
        sampleDiscovery.totalProcessed + (sampleResults.filterMap publicPackageID).length) :=
  ⟨rfl, rfl, by simp [sampleResults], fun i _ => ⟨100 + i, 2000 + i, rfl⟩,
    processBatch_enqueues_public_ids { } sampleEnv sampleDiscovery sampleChanges sampleResults
      rfl rfl (by simp [sampleResults]) (fun i _ => ⟨100 + i, 2000 + i, rfl⟩)⟩

/-! ### Normalising `last_seq` -/

/-- C8, as stated, fails: a JSON number reaches `processBatch` as a `float64`.
The sequence number `2^53 + 1 = 9007199254740993` given as a string
normalises to itself, but given as a JSON number it is decoded to the
`float64` `2^53` and normalises to `9007199254740992`. -/
theorem last_seq_number_loses_precision :
    newLastSeq [("last_seq", Value.str (toString (9007199254740993 : Int)))] =
      "9007199254740993" ∧
    (Float64.ofInt 9007199254740993).map (fun f => newLastSeq [("last_seq", Value.num f)]) =
      some "9007199254740992" ∧
    (Float64.ofInt 9007199254740993).map (fun f =>
        newLastSeq [("last_seq", Value.obj [("seq", Value.num f)])]) =
      some "9007199254740992" := by
  decide

theorem Float64_ofInt_toInt (n : Int) (hn : n.natAbs ≤ 2 ^ 53) :
    ∃ f, Float64.ofInt n = some f ∧ f.toInt = n := by
  by_cases hlt : n.natAbs < 2 ^ 53
  · refine ⟨⟨n, 0⟩, by simp only [Float64.ofInt, if_pos hlt], ?_⟩
    have h1 : -(2 ^ 63 : Int) ≤ n := by omega
    have h2 : n < (2 ^ 63 : Int) := by omega
    simp only [Float64.toInt, le_refl, if_true, Int.toNat_zero, pow_zero, mul_one, h1, h2,
      and_self]
  · have he : n.natAbs = 2 ^ 53 := le_antisymm hn (not_lt.mp hlt)
    rcases Int.natAbs_eq n with h | h
    · rw [he] at h
      subst h
      exact ⟨⟨2 ^ 52, 1⟩, by decide, by decide⟩
    · rw [he] at h
      subst h
      exact ⟨⟨-(2 ^ 52), 1⟩, by decide, by decide⟩

/-- C8, amended.  For every integer sequence number `n` with `|n| <= 2^53`
(the integers a `float64` holds exactly), a response whose `last_seq` is the
decimal string of `n`, the JSON number `n`, the object `{seq: "n"}` or the
object `{seq: n}` normalises to the decimal rendering of `n`; and for every
string `s`, `last_seq = s` and `last_seq = {seq: s}` normalise to `s`
unchanged. -/
theorem newLastSeq_normalises (n : Int) (hn : n.natAbs ≤ 2 ^ 53) (s : String) (changes : Obj) :
    (∃ f, Float64.ofInt n = some f ∧
      (changes.get "last_seq" = some (Value.str (toString n)) →
        newLastSeq changes = toString n) ∧
      (changes.get "last_seq" = some (Value.num f) → newLastSeq changes = toString n) ∧
      (∀ o : Obj, changes.get "last_seq" = some (Value.obj o) →
        o.get "seq" = some (Value.str (toString n)) → newLastSeq changes = toString n) ∧
      (∀ o : Obj, changes.get "last_seq" = some (Value.obj o) →
        o.get "seq" = some (Value.num f) → newLastSeq changes = toString n)) ∧
    (changes.get "last_seq" = some (Value.str s) → newLastSeq changes = s) ∧
    (∀ o : Obj, changes.get "last_seq" = some (Value.obj o) →
      o.get "seq" = some (Value.str s) → newLastSeq changes = s) := by
  obtain ⟨f, hf, hfi⟩ := Float64_ofInt_toInt n hn
  have hstr : ∀ t : String, changes.get "last_seq" = some (Value.str t) →
      newLastSeq changes = t := by
    intro t h
    simp only [newLastSeq, h, asString]
  have hobj : ∀ (t : String) (o : Obj), changes.get "last_seq" = some (Value.obj o) →
      o.get "seq" = some (Value.str t) → newLastSeq changes = t := by
    intro t o h ho
    simp only [newLastSeq, h, ho, asString, asFloat64, asObj]
  refine ⟨⟨f, hf, hstr _, ?_, hobj _, ?_⟩, hstr s, hobj s⟩
  · intro h
    simp only [newLastSeq, h, asString, asFloat64, hfi]
  · intro o h ho
    simp only [newLastSeq, h, ho, asString, asFloat64, asObj, hfi]

theorem newLastSeq_normalises_witness :
    (42 : Int).natAbs ≤ 2 ^ 53 ∧
    ((∃ f, Float64.ofInt 42 = some f ∧
      (sampleChanges.get "last_seq" = some (Value.str (toString (42 : Int))) →
        newLastSeq sampleChanges = toString (42 : Int)) ∧
      (sampleChanges.get "last_seq" = some (Value.num f) →
        newLastSeq sampleChanges = toString (42 : Int)) ∧
      (∀ o : Obj, sampleChanges.get "last_seq" = some (Value.obj o) →
        o.get "seq" = some (Value.str (toString (42 : Int))) →
        newLastSeq sampleChanges = toString (42 : Int)) ∧
      (∀ o : Obj, sampleChanges.get "last_seq" = some (Value.obj o) →
        o.get "seq" = some (Value.num f) → newLastSeq sampleChanges = toString (42 : Int))) ∧
    (sampleChanges.get "last_seq" = some (Value.str "42-g1AAAA") →
      newLastSeq sampleChanges = "42-g1AAAA") ∧
    (∀ o : Obj, sampleChanges.get "last_seq" = some (Value.obj o) →
      o.get "seq" = some (Value.str "42-g1AAAA") → newLastSeq sampleChanges = "42-g1AAAA")) :=
  ⟨by decide, newLastSeq_normalises 42 (by decide) "42-g1AAAA" sampleChanges⟩

/-! ### The worker -/

theorem ExtractPackageData_ok (env : ExtractEnv) (pkgName : String) (rawData : Obj) :
    ∃ pkg, ExtractPackageData env pkgName rawData = .ok pkg :=
  ⟨_, rfl⟩

theorem CalculatePopularityScore_zero : CalculatePopularityScore 0 = 0 := by
  simp [CalculatePopularityScore]

theorem processFetchPackageJob_outcome {env : WorkerEnv} {job : Job} {name : String}
    {raw : Obj} (hname : asString (job.Payload.get "package_name") = some name)
    (hne : name ≠ "") (hget : GetPackage env.net name = .ok raw) :
    ∃ pkg0 pkg, ExtractPackageData env.extract name raw = .ok pkg0 ∧
      pkg = { pkg0 with
              Downloads := downloadsOrZero env.net name
              PopularityScore := CalculatePopularityScore (downloadsOrZero env.net name) } ∧
      packageToStore env name raw = some pkg ∧
      processFetchPackageJob env job =
        (match env.StorePackage pkg with
         | .error e => ⟨some ("failed to store package: " ++ e), some pkg, []⟩
         | .ok id => ⟨none, some pkg, scriptsToStore env raw id pkg.Version⟩) := by
  obtain ⟨pkg0, hpkg0⟩ := ExtractPackageData_ok env.extract name raw
  refine ⟨pkg0, _, hpkg0, rfl, by simp only [packageToStore, hpkg0], ?_⟩
  unfold processFetchPackageJob
  simp only [hname, if_neg hne, hget, hpkg0]
  unfold downloadsOrZero scriptsToStore
  cases hstore : env.StorePackage
      { pkg0 with
        Downloads := (match fetchDownloadCount env.net name with
          | .ok downloads => downloads
          | .error _ => 0)
        PopularityScore := CalculatePopularityScore (match fetchDownloadCount env.net name with
          | .ok downloads => downloads
          | .error _ => 0) } with
  | error e => rfl
  | ok pid =>
    simp only []
    cases hscr : ExtractScripts raw pid pkg0.Version with
    | error e3 => rfl
    | ok scripts => rfl

theorem processFetchPackageJob_of_bad_name {env : WorkerEnv} {job : Job}
    (h : asString (job.Payload.get "package_name") = none ∨
      asString (job.Payload.get "package_name") = some "") :
    (processFetchPackageJob env job).err ≠ none ∧ (processFetchPackageJob env job).stored = none := by
  unfold processFetchPackageJob
  rcases h with h | h <;> simp [h]

theorem processFetchPackageJob_of_fetch_error {env : WorkerEnv} {job : Job} {name e : String}
    (hname : asString (job.Payload.get "package_name") = some name)
    (hne : name ≠ "") (hget : GetPackage env.net name = .error e) :
    (processFetchPackageJob env job).err ≠ none ∧ (processFetchPackageJob env job).stored = none := by
  unfold processFetchPackageJob
  simp [hname, hne, hget]

/-- C9. Fatal and non-fatal steps of `processFetchPackageJob`, whatever the
registry and the stores answer.  It returns an error exactly when the payload's
`package_name` is missing, not a string or empty, or `GetPackage` fails, or
`StorePackage` fails on the package handed to it; in the first two cases no
store is called.  For a valid name whose document is fetched, `StorePackage`
is called with the extracted record carrying the download count and the score
of that count, the count being 0 (and the score 0) when the download-count
fetch fails; a `StorePackage` error is returned and no script is stored; after
a successful `StorePackage` no error is returned, whatever `ExtractScripts`
and the `StoreScript` calls give, and every extracted script is passed to
`StoreScript`. -/
theorem processFetchPackageJob_fatal_iff (env : WorkerEnv) (job : Job) :
    ((processFetchPackageJob env job).err ≠ none ↔
      (asString (job.Payload.get "package_name") = none ∨
        asString (job.Payload.get "package_name") = some "") ∨
      (∃ name e, asString (job.Payload.get "package_name") = some name ∧ name ≠ "" ∧
        GetPackage env.net name = .error e) ∨
      (∃ name raw pkg e, asString (job.Payload.get "package_name") = some name ∧ name ≠ "" ∧
        GetPackage env.net name = .ok raw ∧ packageToStore env name raw = some pkg ∧
        env.StorePackage pkg = .error e)) ∧
    ((asString (job.Payload.get "package_name") = none ∨
        asString (job.Payload.get "package_name") = some "" ∨
        (∃ name e, asString (job.Payload.get "package_name") = some name ∧
          GetPackage env.net name = .error e)) →
      (processFetchPackageJob env job).stored = none ∧
      (processFetchPackageJob env job).scripts = []) ∧
    (∀ name raw, asString (job.Payload.get "package_name") = some name → name ≠ "" →
      GetPackage env.net name = .ok raw →
      ∃ pkg0 pkg, ExtractPackageData env.extract name raw = .ok pkg0 ∧
        pkg = { pkg0 with
                Downloads := downloadsOrZero env.net name
                PopularityScore := CalculatePopularityScore (downloadsOrZero env.net name) } ∧
        packageToStore env name raw = some pkg ∧
        (processFetchPackageJob env job).stored = some pkg ∧
        ((∃ e, fetchDownloadCount env.net name = .error e) →
          pkg.Downloads = 0 ∧ pkg.PopularityScore = 0) ∧
        (∀ d, fetchDownloadCount env.net name = .ok d →
          pkg.Downloads = d ∧ pkg.PopularityScore = CalculatePopularityScore d) ∧
        (∀ e, env.StorePackage pkg = .error e →
          (processFetchPackageJob env job).err = some ("failed to store package: " ++ e) ∧
          (processFetchPackageJob env job).scripts = []) ∧
        (∀ id, env.StorePackage pkg = .ok id →
          (processFetchPackageJob env job).err = none ∧
          (processFetchPackageJob env job).scripts =
            scriptsToStore env raw id pkg.Version)) := by
  have hvalid : ∀ name raw, asString (job.Payload.get "package_name") = some name → name ≠ "" →
      GetPackage env.net name = .ok raw →
      ∃ pkg0 pkg, ExtractPackageData env.extract name raw = .ok pkg0 ∧
        pkg = { pkg0 with
                Downloads := downloadsOrZero env.net name
                PopularityScore := CalculatePopularityScore (downloadsOrZero env.net name) } ∧
        packageToStore env name raw = some pkg ∧
        (processFetchPackageJob env job).stored = some pkg ∧
        ((∃ e, fetchDownloadCount env.net name = .error e) →
          pkg.Downloads = 0 ∧ pkg.PopularityScore = 0) ∧
        (∀ d, fetchDownloadCount env.net name = .ok d →
          pkg.Downloads = d ∧ pkg.PopularityScore = CalculatePopularityScore d) ∧
        (∀ e, env.StorePackage pkg = .error e →
          (processFetchPackageJob env job).err = some ("failed to store package: " ++ e) ∧
          (processFetchPackageJob env job).scripts = []) ∧
        (∀ id, env.StorePackage pkg = .ok id →
          (processFetchPackageJob env job).err = none ∧
          (processFetchPackageJob env job).scripts =
            scriptsToStore env raw id pkg.Version) := by
    intro name raw hname hne hget
    obtain ⟨pkg0, pkg, h0, hpkg, hto, hout⟩ := processFetchPackageJob_outcome hname hne hget
    refine ⟨pkg0, pkg, h0, hpkg, hto, ?_, ?_, ?_, ?_, ?_⟩
    · rw [hout]
      cases env.StorePackage pkg <;> rfl
    · rintro ⟨e, he⟩
      have hd : downloadsOrZero env.net name = 0 := by simp only [downloadsOrZero, he]
      rw [hpkg, hd]
      exact ⟨rfl, CalculatePopularityScore_zero⟩
    · intro d hd
      have hd' : downloadsOrZero env.net name = d := by simp only [downloadsOrZero, hd]
      rw [hpkg, hd']
      exact ⟨rfl, rfl⟩
    · intro e he
      rw [hout, he]
      exact ⟨rfl, rfl⟩
    · intro id hid
      rw [hout, hid]
      exact ⟨rfl, rfl⟩
  refine ⟨?_, ?_, hvalid⟩
  · cases hname : asString (job.Payload.get "package_name") with
    | none =>
      exact ⟨fun _ => Or.inl (Or.inl rfl),
        fun _ => (@processFetchPackageJob_of_bad_name env job (Or.inl hname)).1⟩
    | some name =>
      by_cases hempty : name = ""
      · subst hempty
        exact ⟨fun _ => Or.inl (Or.inr rfl),
          fun _ => (@processFetchPackageJob_of_bad_name env job (Or.inr hname)).1⟩
      · cases hget : GetPackage env.net name with
        | error e =>
          exact ⟨fun _ => Or.inr (Or.inl ⟨name, e, rfl, hempty, hget⟩),
            fun _ => (processFetchPackageJob_of_fetch_error hname hempty hget).1⟩
        | ok raw =>
          obtain ⟨pkg0, pkg, _, _, hto, _, _, _, herr, hok⟩ := hvalid name raw hname hempty hget
          constructor
          · intro hne
            cases hsp : env.StorePackage pkg with
            | error e => exact Or.inr (Or.inr ⟨name, raw, pkg, e, rfl, hempty, hget, hto, hsp⟩)
            | ok id => exact absurd (hok id hsp).1 hne
          · rintro ((h | h) | ⟨n, e, hn, _, hg⟩ | ⟨n, raw', pkg', e, hn, _, hg, hto', hsp⟩)
            · cases h
            · exact absurd (Option.some.inj h) hempty
            · cases hn
              rw [hget] at hg
              cases hg
            · cases hn
              rw [hget] at hg
              cases hg
              rw [hto] at hto'
              cases hto'
              rw [(herr e hsp).1]
              exact Option.some_ne_none _
  · rintro (h | h | ⟨name, e, hname, hget⟩)
    · unfold processFetchPackageJob
      simp [h]
    · unfold processFetchPackageJob
      simp [h]
    · unfold processFetchPackageJob
      by_cases hempty : name = ""
      · simp [hname, hempty]
      · simp [hname, hempty, hget]

theorem processFetchPackageJob_fatal_iff_witness :
    asString (sampleFetchJob.Payload.get "package_name") = some "left-pad" ∧
    GetPackage sampleWorkerEnv.net "left-pad" = .ok samplePackageDoc ∧
    (∃ e, fetchDownloadCount sampleWorkerEnv.net "left-pad" = .error e) ∧
    (processFetchPackageJob sampleWorkerEnv sampleFetchJob).err = none ∧
    (processFetchPackageJob sampleWorkerEnv sampleFetchJob).stored.map
        (fun pkg => (pkg.Name, pkg.Version, pkg.Downloads)) = some ("left-pad", "1.3.0", 0) ∧
    (processFetchPackageJob sampleWorkerEnv sampleFetchJob).scripts =
      [({ PackageID := 77, ScriptType := "postinstall", Content := "node build.js" },
        some "connection reset")] ∧
    (((processFetchPackageJob sampleWorkerEnv sampleFetchJob).err ≠ none ↔
      (asString (sampleFetchJob.Payload.get "package_name") = none ∨
        asString (sampleFetchJob.Payload.get "package_name") = some "") ∨
      (∃ name e, asString (sampleFetchJob.Payload.get "package_name") = some name ∧
        name ≠ "" ∧ GetPackage sampleWorkerEnv.net name = .error e) ∨
      (∃ name raw pkg e, asString (sampleFetchJob.Payload.get "package_name") = some name ∧
        name ≠ "" ∧ GetPackage sampleWorkerEnv.net name = .ok raw ∧
        packageToStore sampleWorkerEnv name raw = some pkg ∧
        sampleWorkerEnv.StorePackage pkg = .error e)) ∧
    ((asString (sampleFetchJob.Payload.get "package_name") = none ∨
        asString (sampleFetchJob.Payload.get "package_name") = some "" ∨
        (∃ name e, asString (sampleFetchJob.Payload.get "package_name") = some name ∧
          GetPackage sampleWorkerEnv.net name = .error e)) →
      (processFetchPackageJob sampleWorkerEnv sampleFetchJob).stored = none ∧
      (processFetchPackageJob sampleWorkerEnv sampleFetchJob).scripts = []) ∧
    (∀ name raw, asString (sampleFetchJob.Payload.get "package_name") = some name →
      name ≠ "" → GetPackage sampleWorkerEnv.net name = .ok raw →
      ∃ pkg0 pkg, ExtractPackageData sampleWorkerEnv.extract name raw = .ok pkg0 ∧
        pkg = { pkg0 with
                Downloads := downloadsOrZero sampleWorkerEnv.net name
                PopularityScore :=
                  CalculatePopularityScore (downloadsOrZero sampleWorkerEnv.net name) } ∧
        packageToStore sampleWorkerEnv name raw = some pkg ∧
        (processFetchPackageJob sampleWorkerEnv sampleFetchJob).stored = some pkg ∧
        ((∃ e, fetchDownloadCount sampleWorkerEnv.net name = .error e) →
          pkg.Downloads = 0 ∧ pkg.PopularityScore = 0) ∧
        (∀ d, fetchDownloadCount sampleWorkerEnv.net name = .ok d →
          pkg.Downloads = d ∧ pkg.PopularityScore = CalculatePopularityScore d) ∧
        (∀ e, sampleWorkerEnv.StorePackage pkg = .error e →
          (processFetchPackageJob sampleWorkerEnv sampleFetchJob).err =
            some ("failed to store package: " ++ e) ∧
          (processFetchPackageJob sampleWorkerEnv sampleFetchJob).scripts = []) ∧
        (∀ id, sampleWorkerEnv.StorePackage pkg = .ok id →
          (processFetchPackageJob sampleWorkerEnv sampleFetchJob).err = none ∧
          (processFetchPackageJob sampleWorkerEnv sampleFetchJob).scripts =
            scriptsToStore sampleWorkerEnv raw id pkg.Version))) :=
  ⟨rfl, rfl, ⟨_, rfl⟩, by decide, by decide, by decide,
    processFetchPackageJob_fatal_iff sampleWorkerEnv sampleFetchJob⟩

/-- C10. Download-count status mapping in `fetchDownloadCount`, for a request
that is built and answered with the response `resp`: status 404 gives the
count 0 with no error; status 200 with a body that reads and decodes gives the
decoded `downloads` value with no error; every status other than 404 and 200
gives an error. -/
theorem fetchDownloadCount_status (net : Net) (pkgName : String) (resp : Response)
    (hreq : net.NewRequest ("https://api.npmjs.org/downloads/point/last-month/" ++ pkgName) = none)
    (hdo : net.Do ("https://api.npmjs.org/downloads/point/last-month/" ++ pkgName) = .ok resp) :
    (resp.StatusCode = 404 → fetchDownloadCount net pkgName = .ok 0) ∧
    (resp.StatusCode = 200 → ∀ body downloads, resp.Body = .ok body →
      net.DecodeDownloads body = .ok downloads →
      fetchDownloadCount net pkgName = .ok downloads) ∧
    (resp.StatusCode ≠ 404 → resp.StatusCode ≠ 200 →
      ∃ e, fetchDownloadCount net pkgName = .error e) := by
  unfold fetchDownloadCount
  simp only [hreq, hdo]
  refine ⟨?_, ?_, ?_⟩
  · intro h
    rw [if_pos h]
  · intro h body downloads hb hd
    have h404 : ¬ resp.StatusCode = 404 := by rw [h]; decide
    rw [if_neg h404, if_neg (not_not.mpr h)]
    simp only [hb, hd]
  · intro h404 h200
    rw [if_neg h404, if_pos h200]
    exact ⟨_, rfl⟩

theorem fetchDownloadCount_status_witness :
    sampleNet.NewRequest ("https://api.npmjs.org/downloads/point/last-month/" ++ "left-pad") =
      none ∧
    sampleNet.Do ("https://api.npmjs.org/downloads/point/last-month/" ++ "left-pad") =
      .ok { StatusCode := 200, Body := .ok "body" } ∧
    (((200 : Int) = 404 → fetchDownloadCount sampleNet "left-pad" = .ok 0) ∧
    ((200 : Int) = 200 → ∀ body downloads, (.ok "body" : Except String String) = .ok body →
      sampleNet.DecodeDownloads body = .ok downloads →
      fetchDownloadCount sampleNet "left-pad" = .ok downloads) ∧
    ((200 : Int) ≠ 404 → (200 : Int) ≠ 200 →
      ∃ e, fetchDownloadCount sampleNet "left-pad" = .error e)) :=
  ⟨rfl, rfl, fetchDownloadCount_status sampleNet "left-pad"
    { StatusCode := 200, Body := .ok "body" } rfl rfl⟩

/-! ### The extractor -/

theorem ExtractPackageData_steps (env : ExtractEnv) (pkgName : String) (rawData : Obj) :
    ExtractPackageData env pkgName rawData =
      .ok (withDefaultTimes env (withTimes env rawData (withLicense rawData
        (withRepository rawData (withHomepage rawData (withAuthor rawData
          (withVersion rawData (withDescription rawData { Name := pkgName })))))))) :=
  rfl

theorem withDescription_eq (rawData : Obj) (pkg : Package) (h : pkg.Description = "") :
    withDescription rawData pkg = { pkg with Description := descriptionOf rawData } := by
  unfold withDescription descriptionOf
  cases hv : rawData.get "description" with
  | none => simp [asString, ← h]
  | some v => cases v <;> simp [asString, ← h]

theorem withVersion_eq (rawData : Obj) (pkg : Package) (h : pkg.Version = "") :
    withVersion rawData pkg = { pkg with Version := versionOf rawData } := by
  unfold withVersion versionOf
  cases hv : rawData.get "dist-tags" with
  | none => simp [asObj, ← h]
  | some v =>
    cases v with
    | obj distTags =>
      simp only [asObj]
      cases hl : Obj.get distTags "latest" with
      | none => simp [asString, ← h]
      | some w => cases w <;> simp [asString, ← h]
    | _ => simp [asObj, ← h]

theorem withAuthor_eq (rawData : Obj) (pkg : Package) (h : pkg.Author = "") :
    withAuthor rawData pkg = { pkg with Author := authorOf rawData } := by
  unfold withAuthor authorOf
  cases hv : rawData.get "author" with
  | none => simp [asObj, asString, ← h]
  | some v =>
    cases v with
    | obj author =>
      simp only [asObj]
      cases hl : Obj.get author "name" with
      | none => simp [asString, ← h]
      | some w => cases w <;> simp [asString, ← h]
    | _ => simp [asObj, asString, ← h]

theorem withHomepage_eq (rawData : Obj) (pkg : Package) (h : pkg.Homepage = "") :
    withHomepage rawData pkg = { pkg with Homepage := homepageOf rawData } := by
  unfold withHomepage homepageOf
  cases hv : rawData.get "homepage" with
  | none => simp [asString, ← h]
  | some v => cases v <;> simp [asString, ← h]

theorem withRepository_eq (rawData : Obj) (pkg : Package) (h : pkg.Repository = "") :
    withRepository rawData pkg = { pkg with Repository := repositoryOf rawData } := by
  unfold withRepository repositoryOf
  cases hv : rawData.get "repository" with
  | none => simp [asObj, asString, ← h]
  | some v =>
    cases v with
    | obj repo =>
      simp only [asObj]
      cases hl : Obj.get repo "url" with
      | none => simp [asString, ← h]
      | some w => cases w <;> simp [asString, ← h]
    | _ => simp [asObj, asString, ← h]

theorem withLicense_eq (rawData : Obj) (pkg : Package) (h : pkg.License = "") :
    withLicense rawData pkg = { pkg with License := licenseOf rawData } := by
  have hls : (match asArr (rawData.get "licenses") with
      | some (first :: _) =>
        match asObj (some first) with
        | some licenseObj =>
          match asString (Obj.get licenseObj "type") with
          | some licType => { pkg with License := licType }
          | none => pkg
        | none => pkg
      | _ => pkg) =
      { pkg with License :=
        match rawData.get "licenses" with
        | some (Value.arr (Value.obj first :: _)) =>
          match Obj.get first "type" with
          | some (Value.str s) => s
          | _ => ""
        | _ => "" } := by
    cases hv : rawData.get "licenses" with
    | none => simp [asArr, ← h]
    | some v =>
      cases v with
      | arr xs =>
        cases xs with
        | nil => simp [asArr, ← h]
        | cons first rest =>
          cases first with
          | obj l =>
            simp only [asArr, asObj]
            cases ht : Obj.get l "type" with
            | none => simp [asString, ← h]
            | some w => cases w <;> simp [asString, ← h]
          | _ => simp [asArr, asObj, ← h]
      | _ => simp [asArr, ← h]
  unfold withLicense licenseOf
  cases hv : rawData.get "license" with
  | none => simpa [asString] using hls
  | some v =>
    cases v with
    | str s => simp [asString]
    | _ => simpa [asString] using hls

theorem withTimes_eq (env : ExtractEnv) (rawData : Obj) (pkg : Package) :
    withTimes env rawData pkg =
      { pkg with
        CreatedAt := (parsedTime env rawData "created").getD pkg.CreatedAt
        UpdatedAt := (parsedTime env rawData "modified").getD pkg.UpdatedAt } := by
  have hkey : ∀ (times : Obj) (key : String),
      (match asString (Obj.get times key) with
        | some s => env.Parse s
        | none => none) =
      (match Obj.get times key with
        | some (Value.str s) => env.Parse s
        | _ => none) := by
    intro times key
    cases hv : Obj.get times key with
    | none => rfl
    | some v => cases v <;> rfl
  unfold withTimes parsedTime
  cases hv : rawData.get "time" with
  | none => simp [asObj]
  | some v =>
    cases v with
    | obj times =>
      simp only [asObj, ← hkey]
      cases hc : asString (Obj.get times "created") with
      | none =>
        cases hm : asString (Obj.get times "modified") with
        | none => rfl
        | some m => cases hp : env.Parse m <;> simp [hp]
      | some c =>
        cases hq : env.Parse c with
        | none =>
          cases hm : asString (Obj.get times "modified") with
          | none => simp [hq]
          | some m => cases hp : env.Parse m <;> simp [hp, hq]
        | some t =>
          cases hm : asString (Obj.get times "modified") with
          | none => simp [hq]
          | some m => cases hp : env.Parse m <;> simp [hp, hq]
    | _ => simp [asObj]

theorem withDefaultTimes_eq (env : ExtractEnv) (pkg : Package) :
    withDefaultTimes env pkg =
      { pkg with
        CreatedAt := if pkg.CreatedAt = 0 then env.NowCreated else pkg.CreatedAt
        UpdatedAt := if pkg.UpdatedAt = 0 then env.NowUpdated else pkg.UpdatedAt } := by
  unfold withDefaultTimes isZero
  by_cases hc : pkg.CreatedAt = 0 <;> by_cases hu : pkg.UpdatedAt = 0 <;> simp [hc, hu]

/-- The extractor, field by field: `ExtractPackageData` never fails, and every
field of its result is given by the spec's rule for it; a timestamp that is
missing, unparseable or parsed to the zero time is replaced by the clock. -/
theorem ExtractPackageData_fields (env : ExtractEnv) (pkgName : String) (rawData : Obj) :
    ExtractPackageData env pkgName rawData =
      .ok { Name := pkgName
            Version := versionOf rawData
            Description := descriptionOf rawData
            Author := authorOf rawData
            Homepage := homepageOf rawData
            Repository := repositoryOf rawData
            License := licenseOf rawData
            CreatedAt :=
              if (parsedTime env rawData "created").getD 0 = 0 then env.NowCreated
              else (parsedTime env rawData "created").getD 0
            UpdatedAt :=
              if (parsedTime env rawData "modified").getD 0 = 0 then env.NowUpdated
              else (parsedTime env rawData "modified").getD 0 } := by
  rw [ExtractPackageData_steps, withDescription_eq _ _ rfl, withVersion_eq _ _ rfl,
    withAuthor_eq _ _ rfl, withHomepage_eq _ _ rfl, withRepository_eq _ _ rfl,
    withLicense_eq _ _ rfl, withTimes_eq, withDefaultTimes_eq]

/-- C11 (P6). Extraction is total with defaults.  For every package name and
every document, `ExtractPackageData` returns a record and no error; `Name` is
the given name; `Version` is `dist-tags.latest` when that is a string; and
each of `Version`, `Description`, `Author`, `Homepage`, `Repository` and
`License` is the empty string when its source (`dist-tags` or its `latest`;
`description`; `author`; `homepage`; `repository`; `license` together with its
fallback `licenses`) is missing.  On the empty document every string field but
`Name` is empty and both timestamps are the clock's. -/
theorem ExtractPackageData_total_with_defaults (env : ExtractEnv) (pkgName : String)
    (rawData : Obj) :
    ∃ pkg, ExtractPackageData env pkgName rawData = .ok pkg ∧ pkg.Name = pkgName ∧
      (∀ distTags latest, rawData.get "dist-tags" = some (Value.obj distTags) →
        Obj.get distTags "latest" = some (Value.str latest) → pkg.Version = latest) ∧
      (rawData.get "dist-tags" = none → pkg.Version = "") ∧
      (∀ distTags, rawData.get "dist-tags" = some (Value.obj distTags) →
        Obj.get distTags "latest" = none → pkg.Version = "") ∧
      (rawData.get "description" = none → pkg.Description = "") ∧
      (rawData.get "author" = none → pkg.Author = "") ∧
      (rawData.get "homepage" = none → pkg.Homepage = "") ∧
      (rawData.get "repository" = none → pkg.Repository = "") ∧
      (rawData.get "license" = none → rawData.get "licenses" = none → pkg.License = "") ∧
      ExtractPackageData env pkgName [] =
        .ok { Name := pkgName, CreatedAt := env.NowCreated, UpdatedAt := env.NowUpdated } := by
  refine ⟨_, ExtractPackageData_fields env pkgName rawData, rfl, ?_, ?_, ?_, ?_, ?_, ?_, ?_, ?_, rfl⟩
  · intro distTags latest h1 h2
    simp only [versionOf, h1, h2]
  · intro h
    simp only [versionOf, h]
  · intro distTags h1 h2
    simp only [versionOf, h1, h2]
  · intro h
    simp only [descriptionOf, h]
  · intro h
    simp only [authorOf, h]
  · intro h
    simp only [homepageOf, h]
  · intro h
    simp only [repositoryOf, h]
  · intro h1 h2
    simp only [licenseOf, h1, h2]

/-- C13, as stated, fails: the zero time is the extractor's mark for "not
set".  In the sample document `time.created` is a string that parses as
RFC3339, to the zero instant, and the record's `CreatedAt` is not that parsed
value but the clock's reading. -/
theorem parsed_zero_time_replaced_by_now :
    parsedTime sampleExtractEnv sampleZeroTimeDoc "created" = some 0 ∧
    (ExtractPackageData sampleExtractEnv "left-pad" sampleZeroTimeDoc).toOption.map
      (fun pkg => pkg.CreatedAt) = some sampleExtractEnv.NowCreated ∧
    sampleExtractEnv.NowCreated ≠ 0 := by
  refine ⟨by decide, ?_, by decide⟩
  rw [ExtractPackageData_fields]
  decide

/-- C13, amended.  With a clock that never reads the zero time: `CreatedAt` is
the parsed value of `time.created` when that is a string that parses as
RFC3339 to a time other than the zero time, and the current time when it is
missing, unparseable or parses to the zero time; likewise `UpdatedAt` for
`time.modified`; so neither is ever the zero time. -/
theorem ExtractPackageData_timestamps (env : ExtractEnv) (pkgName : String) (rawData : Obj)
    (hc : env.NowCreated ≠ 0) (hu : env.NowUpdated ≠ 0) :
    ∃ pkg, ExtractPackageData env pkgName rawData = .ok pkg ∧
      (∀ t, parsedTime env rawData "created" = some t → t ≠ 0 → pkg.CreatedAt = t) ∧
      (parsedTime env rawData "created" = none ∨ parsedTime env rawData "created" = some 0 →
        pkg.CreatedAt = env.NowCreated) ∧
      (∀ t, parsedTime env rawData "modified" = some t → t ≠ 0 → pkg.UpdatedAt = t) ∧
      (parsedTime env rawData "modified" = none ∨ parsedTime env rawData "modified" = some 0 →
        pkg.UpdatedAt = env.NowUpdated) ∧
      pkg.CreatedAt ≠ 0 ∧ pkg.UpdatedAt ≠ 0 := by
  refine ⟨_, ExtractPackageData_fields env pkgName rawData, ?_, ?_, ?_, ?_, ?_, ?_⟩
  · intro t h ht
    simp only [h, Option.getD_some, if_neg ht]
  · rintro (h | h) <;> simp [h]
  · intro t h ht
    simp only [h, Option.getD_some, if_neg ht]
  · rintro (h | h) <;> simp [h]
  · show (if (parsedTime env rawData "created").getD 0 = 0 then env.NowCreated
      else (parsedTime env rawData "created").getD 0) ≠ 0
    split
    · exact hc
    · assumption
  · show (if (parsedTime env rawData "modified").getD 0 = 0 then env.NowUpdated
      else (parsedTime env rawData "modified").getD 0) ≠ 0
    split
    · exact hu
    · assumption

theorem ExtractPackageData_timestamps_witness :
    sampleExtractEnv.NowCreated ≠ 0 ∧ sampleExtractEnv.NowUpdated ≠ 0 ∧
    ∃ pkg, ExtractPackageData sampleExtractEnv "left-pad" sampleZeroTimeDoc = .ok pkg ∧
      (∀ t, parsedTime sampleExtractEnv sampleZeroTimeDoc "created" = some t → t ≠ 0 →
        pkg.CreatedAt = t) ∧
      (parsedTime sampleExtractEnv sampleZeroTimeDoc "created" = none ∨
          parsedTime sampleExtractEnv sampleZeroTimeDoc "created" = some 0 →
        pkg.CreatedAt = sampleExtractEnv.NowCreated) ∧
      (∀ t, parsedTime sampleExtractEnv sampleZeroTimeDoc "modified" = some t → t ≠ 0 →
        pkg.UpdatedAt = t) ∧
      (parsedTime sampleExtractEnv sampleZeroTimeDoc "modified" = none ∨
          parsedTime sampleExtractEnv sampleZeroTimeDoc "modified" = some 0 →
        pkg.UpdatedAt = sampleExtractEnv.NowUpdated) ∧
      pkg.CreatedAt ≠ 0 ∧ pkg.UpdatedAt ≠ 0 :=
  ⟨by decide, by decide,
    ExtractPackageData_timestamps sampleExtractEnv "left-pad" sampleZeroTimeDoc
      (by decide) (by decide)⟩

theorem foldl_append_filterMap {α β : Type} (step : List β → α → List β) (g : α → Option β)
    (h : ∀ acc a, step acc a = acc ++ (g a).toList) (l : List α) :
    ∀ acc, l.foldl step acc = acc ++ l.filterMap g := by
  induction l with
  | nil => intro acc; simp
  | cons a l ih =>
    intro acc
    rw [List.foldl_cons, ih, h]
    cases hg : g a <;> simp [List.filterMap_cons, hg]

theorem ExtractScripts_of_version {rawData versions versionData : Obj} (packageID : UUID)
    {version : String} (hv : rawData.get "versions" = some (Value.obj versions))
    (hd : Obj.get versions version = some (Value.obj versionData)) :
    ExtractScripts rawData packageID version =
      .ok (["install", "preinstall", "postinstall"].filterMap (fun scriptType =>
        (scriptBody versionData scriptType).map (fun content =>
          { PackageID := packageID, ScriptType := scriptType, Content := content }))) := by
  unfold ExtractScripts
  simp only [hv, hd, asObj]
  cases hs : Obj.get versionData "scripts" with
  | none => simp [scriptBody, hs, asObj]
  | some s =>
    cases s with
    | obj scripts =>
      simp only [asObj]
      congr 1
      rw [foldl_append_filterMap _ (fun scriptType =>
        (scriptBody versionData scriptType).map (fun content =>
          ({ PackageID := packageID, ScriptType := scriptType, Content := content } :
            PackageScript)))]
      · simp
      · intro acc t
        simp only [scriptBody, hs]
        cases ht : Obj.get scripts t with
        | none => simp [asString]
        | some w =>
          cases w with
          | str c => by_cases hc : c = "" <;> simp [asString, hc]
          | _ => simp [asString]
    | _ => simp [scriptBody, hs, asObj]

/-- C12. `ExtractScripts(document, packageID, version)` fails exactly when the
document's `versions` is not an object or holds no object under `version`.
Otherwise it returns, in the order install, preinstall, postinstall, exactly
one script for each of these types whose `scripts` entry of that version is a
non-empty string, with that type, that string verbatim and the given package
id; so no other type and no empty content occurs, and nothing of any other
version is read. -/
theorem ExtractScripts_exact (rawData : Obj) (packageID : UUID) (version : String) :
    ((∃ e, ExtractScripts rawData packageID version = .error e) ↔
      ¬ ∃ versions versionData, rawData.get "versions" = some (Value.obj versions) ∧
        Obj.get versions version = some (Value.obj versionData)) ∧
    (∀ versions versionData, rawData.get "versions" = some (Value.obj versions) →
      Obj.get versions version = some (Value.obj versionData) →
      ∃ scripts, ExtractScripts rawData packageID version = .ok scripts ∧
        scripts = ["install", "preinstall", "postinstall"].filterMap (fun scriptType =>
          (scriptBody versionData scriptType).map (fun content =>
            { PackageID := packageID, ScriptType := scriptType, Content := content })) ∧
        (∀ s ∈ scripts, s.PackageID = packageID ∧ s.Content ≠ "" ∧
          (s.ScriptType = "install" ∨ s.ScriptType = "preinstall" ∨
            s.ScriptType = "postinstall") ∧
          scriptBody versionData s.ScriptType = some s.Content) ∧
        (∀ scriptType content,
          (scriptType = "install" ∨ scriptType = "preinstall" ∨ scriptType = "postinstall") →
          scriptBody versionData scriptType = some content →
          ({ PackageID := packageID, ScriptType := scriptType, Content := content } :
            PackageScript) ∈ scripts)) := by
  have hbody : ∀ (versionData : Obj) (t c : String), scriptBody versionData t = some c →
      c ≠ "" := by
    intro versionData t c h
    unfold scriptBody at h
    split at h
    · split at h
      · split at h
        · cases h
        · cases h; assumption
      · cases h
    · cases h
  constructor
  · constructor
    · rintro ⟨e, he⟩ ⟨versions, versionData, hv, hd⟩
      rw [ExtractScripts_of_version packageID hv hd] at he
      cases he
    · intro hno
      unfold ExtractScripts
      cases hv : rawData.get "versions" with
      | none => exact ⟨_, rfl⟩
      | some v =>
        cases v with
        | obj versions =>
          simp only [asObj]
          cases hd : Obj.get versions version with
          | none => exact ⟨_, rfl⟩
          | some d =>
            cases d with
            | obj versionData => exact absurd ⟨versions, versionData, hv, hd⟩ hno
            | _ => exact ⟨_, rfl⟩
        | _ => exact ⟨_, rfl⟩
  · intro versions versionData hv hd
    refine ⟨_, ExtractScripts_of_version packageID hv hd, rfl, ?_, ?_⟩
    · intro s hs
      simp only [List.mem_filterMap, Option.map_eq_some'] at hs
      obtain ⟨t, ht, c, hc, rfl⟩ := hs
      refine ⟨rfl, hbody versionData t c hc, ?_, hc⟩
      simpa using ht
    · intro t c ht hc
      simp only [List.mem_filterMap, Option.map_eq_some']
      exact ⟨t, by simpa using ht, c, hc, rfl⟩

/-! ### Popularity -/

/-- C14 (P7). Popularity range, in exact arithmetic: for every
`downloads >= 0`, `CalculatePopularityScore downloads` is
`min 1 (downloads / 1000000)`; it lies in `[0, 1]`, is `0` for no downloads
and is exactly `1` from one million downloads on. -/
theorem CalculatePopularityScore_range (downloads : Int) (h : 0 ≤ downloads) :
    CalculatePopularityScore downloads = min 1 ((downloads : ℚ) / 1000000) ∧
    0 ≤ CalculatePopularityScore downloads ∧ CalculatePopularityScore downloads ≤ 1 ∧
    (downloads = 0 → CalculatePopularityScore downloads = 0) ∧
    (1000000 ≤ downloads → CalculatePopularityScore downloads = 1) := by
  have hq : (0 : ℚ) ≤ (downloads : ℚ) := by exact_mod_cast h
  refine ⟨rfl, ?_, ?_, ?_, ?_⟩
  · unfold CalculatePopularityScore
    exact le_min zero_le_one (div_nonneg hq (by norm_num))
  · unfold CalculatePopularityScore
    exact min_le_left _ _
  · intro h0
    rw [h0]
    simp [CalculatePopularityScore]
  · intro hbig
    unfold CalculatePopularityScore
    apply min_eq_left
    rw [le_div_iff₀ (by norm_num : (0 : ℚ) < 1000000)]
    have : (1000000 : ℚ) ≤ (downloads : ℚ) := by exact_mod_cast hbig
    linarith

theorem CalculatePopularityScore_range_witness :
    (0 : Int) ≤ 2000000 ∧
    (CalculatePopularityScore 2000000 = min 1 (((2000000 : Int) : ℚ) / 1000000) ∧
    0 ≤ CalculatePopularityScore 2000000 ∧ CalculatePopularityScore 2000000 ≤ 1 ∧
    ((2000000 : Int) = 0 → CalculatePopularityScore 2000000 = 0) ∧
    ((1000000 : Int) ≤ 2000000 → CalculatePopularityScore 2000000 = 1)) :=
  ⟨by decide, CalculatePopularityScore_range 2000000 (by decide)⟩

/-! ### The change-feed limit -/

/-- C15, as stated, fails: a limit above 10000 is cut down to 10000, not
replaced by the default 1000. -/
theorem limit_above_max_is_clamped_not_defaulted :
    (20000 : Int) > 10000 ∧ changesLimit 20000 = 10000 ∧ changesLimit 20000 ≠ 1000 := by
  decide

/-- C15, amended.  For every integer `limit` passed to `GetChanges`, the limit
placed in the request lies in `[1, 10000]`; it equals `limit` when
`1 <= limit <= 10000`, the default 1000 when `limit < 1`, and 10000 when
`limit > 10000`; and the request goes to the URL carrying that limit. -/
theorem changesLimit_clamps (net : Net) (since : String) (limit : Int) :
    1 ≤ changesLimit limit ∧ changesLimit limit ≤ 10000 ∧
    (1 ≤ limit → limit ≤ 10000 → changesLimit limit = limit) ∧
    (limit < 1 → changesLimit limit = 1000) ∧
    (10000 < limit → changesLimit limit = 10000) ∧
    GetChanges net since limit =
      getJSON net
        ("https://replicate.npmjs.com/registry/_changes" ++ "?limit=" ++
          toString (changesLimit limit) ++ "&since=" ++ since) true := by
  unfold changesLimit
  refine ⟨?_, ?_, ?_, ?_, ?_, rfl⟩
  · split
    · decide
    · split
      · decide
      · omega
  · split
    · decide
    · split
      · decide
      · omega
  · intro h1 h2
    rw [if_neg (by omega), if_neg (by omega)]
  · intro h
    rw [if_neg (by omega), if_pos h]
  · intro h
    rw [if_pos h]

/-! ### Attempt monotonicity -/

theorem scanJob_ID {r : JobRow} {job : Job} (h : scanJob r = .ok job) : job.ID = r.id := by
  unfold scanJob at h
  cases hn : r.next_attempt_after with
  | none => rw [hn] at h; cases h
  | some naa =>
    rw [hn] at h
    cases h
    rfl

/-- The three possible outcomes of `ClaimJob`, on any table. -/
theorem ClaimJob_shape (now : Time) (workerID : String) (tbl : JobTable) :
    ClaimJob now workerID tbl = (tbl, .ok none) ∨
    (∃ e, ClaimJob now workerID tbl = (tbl, .error e)) ∨
    (∃ job, ClaimJob now workerID tbl =
      (tbl.map (fun r => if r.id = job.ID then claimUpdate now workerID r else r),
        .ok (some job))) := by
  unfold ClaimJob
  cases hsel : claimSelect now tbl with
  | none => exact Or.inl rfl
  | some id =>
    simp only []
    cases hfind : tbl.find? (fun r => r.id == id) with
    | none => exact Or.inl rfl
    | some r =>
      simp only []
      cases hscan : scanJob (claimUpdate now workerID r) with
      | error e => exact Or.inr (Or.inl ⟨e, rfl⟩)
      | ok job =>
        have hid : job.ID = id := by
          rw [scanJob_ID hscan]
          have := List.find?_some hfind
          simpa [claimUpdate] using this
        subst hid
        exact Or.inr (Or.inr ⟨job, rfl⟩)

theorem getElem?_map_of_some {tbl : JobTable} {i : Nat} {r : JobRow} (hi : tbl[i]? = some r)
    (f : JobRow → JobRow) : (tbl.map f)[i]? = some (f r) := by
  rw [List.getElem?_map, hi]
  rfl

theorem StoreOp_apply_monotone (op : StoreOp) (tbl : JobTable) (i : Nat) (r : JobRow)
    (hi : tbl[i]? = some r) :
    ∃ r', (op.apply tbl)[i]? = some r' ∧ r'.id = r.id ∧ r.attempts ≤ r'.attempts := by
  cases op with
  | claim now workerID =>
    simp only [StoreOp.apply]
    rcases ClaimJob_shape now workerID tbl with h | ⟨e, h⟩ | ⟨job, h⟩
    · rw [h]; exact ⟨r, hi, rfl, le_refl _⟩
    · rw [h]; exact ⟨r, hi, rfl, le_refl _⟩
    · rw [h]
      refine ⟨_, getElem?_map_of_some hi _, ?_, ?_⟩
      · by_cases hr : r.id = job.ID <;> simp [hr, claimUpdate]
      · by_cases hr : r.id = job.ID <;> simp [hr, claimUpdate]
  | fail now jobID errorMsg =>
    simp only [StoreOp.apply, FailJob]
    refine ⟨_, getElem?_map_of_some hi _, ?_, ?_⟩
    · by_cases hr : r.id = jobID <;> simp [hr, failUpdate]
    · by_cases hr : r.id = jobID <;> simp [hr, failUpdate]
  | complete now jobID =>
    simp only [StoreOp.apply, CompleteJob]
    refine ⟨_, getElem?_map_of_some hi _, ?_, ?_⟩
    · by_cases hr : r.id = jobID <;> simp [hr]
    · by_cases hr : r.id = jobID <;> simp [hr]

theorem runOps_monotone (ops : List StoreOp) :
    ∀ (tbl : JobTable) (i : Nat) (r : JobRow), tbl[i]? = some r →
      ∃ r', (runOps ops tbl)[i]? = some r' ∧ r'.id = r.id ∧ r.attempts ≤ r'.attempts := by
  induction ops with
  | nil => intro tbl i r hi; exact ⟨r, hi, rfl, le_refl _⟩
  | cons op ops ih =>
    intro tbl i r hi
    obtain ⟨r1, h1, hid1, hle1⟩ := StoreOp_apply_monotone op tbl i r hi
    obtain ⟨r2, h2, hid2, hle2⟩ := ih (op.apply tbl) i r1 h1
    exact ⟨r2, h2, hid2.trans hid1, le_trans hle1 hle2⟩

/-- C16 (P2). Attempt monotonicity.  Across any sequence of `ClaimJob`,
`FailJob` and `CompleteJob` steps every row keeps its place and its id and its
`attempts` never decreases.  A `ClaimJob` that returns a job raises `attempts`
by exactly one on the claimed job and leaves it as it was on every other row;
a `ClaimJob` that returns none leaves the table as it was; `FailJob` and
`CompleteJob` leave every `attempts` unchanged. -/
theorem attempts_never_decrease (ops : List StoreOp) (tbl : JobTable) (now : Time)
    (workerID errorMsg : String) (jobID : UUID) :
    (∀ (i : Nat) (r : JobRow), tbl[i]? = some r →
      ∃ r', (runOps ops tbl)[i]? = some r' ∧ r'.id = r.id ∧ r.attempts ≤ r'.attempts) ∧
    (∀ job, (ClaimJob now workerID tbl).2 = .ok (some job) →
      ∀ (i : Nat) (r : JobRow), tbl[i]? = some r →
        (ClaimJob now workerID tbl).1[i]?.map (fun x => x.attempts) =
          some (if r.id = job.ID then r.attempts + 1 else r.attempts)) ∧
    ((∀ job, (ClaimJob now workerID tbl).2 ≠ .ok (some job)) →
      (ClaimJob now workerID tbl).1 = tbl) ∧
    (∀ i : Nat, (FailJob now jobID errorMsg tbl)[i]?.map (fun x => x.attempts) =
      tbl[i]?.map (fun x => x.attempts)) ∧
    (∀ i : Nat, (CompleteJob now jobID tbl)[i]?.map (fun x => x.attempts) =
      tbl[i]?.map (fun x => x.attempts)) := by
  refine ⟨runOps_monotone ops tbl, ?_, ?_, ?_, ?_⟩
  · intro job hjob i r hi
    rcases ClaimJob_shape now workerID tbl with h | ⟨e, h⟩ | ⟨job', h⟩
    · rw [h] at hjob; cases hjob
    · rw [h] at hjob; cases hjob
    · rw [h] at hjob ⊢
      cases hjob
      rw [getElem?_map_of_some hi]
      by_cases hr : r.id = job.ID <;> simp [hr, claimUpdate]
  · intro hnone
    rcases ClaimJob_shape now workerID tbl with h | ⟨e, h⟩ | ⟨job', h⟩
    · rw [h]
    · rw [h]
    · exact absurd (by rw [h]) (hnone job')
  · intro i
    unfold FailJob
    rw [List.getElem?_map]
    cases tbl[i]? with
    | none => rfl
    | some r => by_cases hr : r.id = jobID <;> simp [hr, failUpdate]
  · intro i
    unfold CompleteJob
    rw [List.getElem?_map]
    cases tbl[i]? with
    | none => rfl
    | some r => by_cases hr : r.id = jobID <;> simp [hr]

/-! ### A failed checkpoint write -/

/-- C17. A checkpoint write failure is swallowed.  For a fetched batch with a
non-empty `results` array: when the normalised `last_seq` is a non-empty token
other than the current one and `UpdateScrapeProgress` fails, `processBatch`
still returns no error, the in-memory token is the new token and the stored
checkpoint is what it was, so the store still reports the old position; when
the normalised `last_seq` is empty or equals the current token, neither the
in-memory token nor the stored checkpoint changes. -/
theorem processBatch_swallows_checkpoint_error (config : Config) (env : BatchEnv)
    (s : Discovery) (changes : Obj) (results : List Value)
    (hget : GetChanges env.net s.lastSequence config.BatchSize = .ok changes)
    (hres : asArr (changes.get "results") = some results) (hne : results ≠ []) :
    (newLastSeq changes ≠ "" → newLastSeq changes ≠ s.lastSequence →
      ∀ e, env.Upsert = .error e →
        (processBatch config env s).2 = none ∧
        (processBatch config env s).1.lastSequence = newLastSeq changes ∧
        (processBatch config env s).1.progress = s.progress ∧
        GetScrapeProgress "npm_changes" (processBatch config env s).1.progress =
          GetScrapeProgress "npm_changes" s.progress) ∧
    (newLastSeq changes = "" ∨ newLastSeq changes = s.lastSequence →
      (processBatch config env s).2 = none ∧
      (processBatch config env s).1.lastSequence = s.lastSequence ∧
      (processBatch config env s).1.progress = s.progress) := by
  rw [processBatch_of_results hget hres hne]
  constructor
  · intro h1 h2 e he
    rw [if_pos ⟨h1, h2⟩]
    simp only [UpdateScrapeProgress, he, and_self]
  · intro h
    have hn : ¬ (newLastSeq changes ≠ "" ∧ newLastSeq changes ≠ s.lastSequence) := by
      rintro ⟨h1, h2⟩
      rcases h with h | h
      · exact h1 h
      · exact h2 h
    rw [if_neg hn]
    exact ⟨rfl, rfl, rfl⟩

theorem processBatch_swallows_checkpoint_error_witness :
    GetChanges sampleEnvUpsertFails.net sampleDiscovery.lastSequence ({ } : Config).BatchSize =
      .ok sampleChanges ∧
    asArr (sampleChanges.get "results") = some sampleResults ∧ sampleResults ≠ [] ∧
    ((newLastSeq sampleChanges ≠ "" → newLastSeq sampleChanges ≠ sampleDiscovery.lastSequence →
      ∀ e, sampleEnvUpsertFails.Upsert = .error e →
        (processBatch { } sampleEnvUpsertFails sampleDiscovery).2 = none ∧
        (processBatch { } sampleEnvUpsertFails sampleDiscovery).1.lastSequence =
          newLastSeq sampleChanges ∧
        (processBatch { } sampleEnvUpsertFails sampleDiscovery).1.progress =
          sampleDiscovery.progress ∧
        GetScrapeProgress "npm_changes"
            (processBatch { } sampleEnvUpsertFails sampleDiscovery).1.progress =
          GetScrapeProgress "npm_changes" sampleDiscovery.progress) ∧
    (newLastSeq sampleChanges = "" ∨ newLastSeq sampleChanges = sampleDiscovery.lastSequence →
      (processBatch { } sampleEnvUpsertFails sampleDiscovery).2 = none ∧
      (processBatch { } sampleEnvUpsertFails sampleDiscovery).1.lastSequence =
        sampleDiscovery.lastSequence ∧
      (processBatch { } sampleEnvUpsertFails sampleDiscovery).1.progress =
        sampleDiscovery.progress)) :=
  ⟨rfl, rfl, by simp [sampleResults],
    processBatch_swallows_checkpoint_error { } sampleEnvUpsertFails sampleDiscovery sampleChanges
      sampleResults rfl rfl (by simp [sampleResults])⟩

end ScrapeNPM
